import Mathlib

/-!
Verification of the `kimi-code` proxy (`proxy.js`): a shallow embedding of the
`POST /v1/messages` handler — payload translation, JSON-schema sanitization,
the non-streaming response translator, and the streaming SSE re-framer — with
theorems about the claims of the specification.

Conventions of the embedding:
* JavaScript strings are Lean `String`s; the JS operations used by the source
  (`split`, `trim`, `startsWith`, `substring`, `replace` with a plain-string
  pattern, `includes`) are defined below over the underlying character list,
  mirroring their JS semantics.
* JSON values are the inductive type `J`; a JS object is its field list in
  enumeration order.  `JSON.parse` of upstream frames is an abstract parameter
  (it is a platform primitive, not part of the repository).
* Absent JS fields are `Option.none`; JS truthiness of a string is
  "present and nonempty".
-/

namespace Proxy

/-! ## JavaScript string primitives -/

/-- Whitespace as used by JS `trim` / the regular expression `\s`
(restricted to the ASCII whitespace that can occur in SSE data). -/
def jsWs (c : Char) : Bool := c == ' ' || c == '\t' || c == '\n' || c == '\r'

/-- JS `String.prototype.trim` over the character list. -/
def trimL (l : List Char) : List Char :=
  ((l.dropWhile jsWs).reverse.dropWhile jsWs).reverse

/-- JS `String.prototype.trim`. -/
def jsTrim (s : String) : String := ⟨trimL s.data⟩

/-- Split a character list at every occurrence of a separator character;
JS `String.prototype.split` with a single-character separator. -/
def splitChA (sep : Char) : List Char → List (List Char)
  | [] => [[]]
  | c :: cs =>
    if c == sep then [] :: splitChA sep cs
    else (splitChA sep cs).modifyHead (c :: ·)

/-- JS `s.split(sep)` for a one-character separator. -/
def jsSplit (s : String) (sep : Char) : List String :=
  (splitChA sep s.data).map (⟨·⟩)

/-- `s.split(' ').length`, the word-count estimate used by the source for
token usage (note: `"".split(' ').length` is `1`). -/
def wordCount (s : String) : Nat := (jsSplit s ' ').length

/-- JS `s.substring(n)`. -/
def subFrom (s : String) (n : Nat) : String := ⟨s.data.drop n⟩

/-- JS `s.startsWith(p)`. -/
def jsStartsWith (s p : String) : Bool := p.data.isPrefixOf s.data

/-- Does `pat` occur as a contiguous subsequence of `l`?
JS `String.prototype.includes` over character lists. -/
def containsSeq (pat : List Char) : List Char → Bool
  | [] => pat.isEmpty
  | c :: t => pat.isPrefixOf (c :: t) || containsSeq pat t

/-- JS `s.includes(pat)`. -/
def jsIncludes (s pat : String) : Bool := containsSeq pat.data s.data

/-- Replace the first (leftmost) occurrence of `pat` by `rep`;
JS `String.prototype.replace` with a plain-string pattern, over lists. -/
def replFirstL (pat rep : List Char) : List Char → List Char
  | [] => if pat.isEmpty then rep else []
  | c :: t =>
    if pat.isPrefixOf (c :: t) then rep ++ (c :: t).drop pat.length
    else c :: replFirstL pat rep t

/-- JS `s.replace(pat, rep)` for a plain-string `pat` (first occurrence only;
if `pat` does not occur, the string is returned unchanged). -/
def jsReplaceFirst (s pat rep : String) : String :=
  ⟨replFirstL pat.data rep.data s.data⟩

/-- Truthiness of a possibly-absent JS string: present and nonempty. -/
def truthyStr : Option String → Bool
  | some s => !s.isEmpty
  | none => false

/-! ## JSON values

A JS/JSON value as manipulated by the proxy.  An object is its ordered field
list (JS enumeration order); `null` is its own constructor because
`typeof null === 'object'` matters to the sanitizer. -/

inductive J where
  | null
  | bool (b : Bool)
  | num (n : Int)
  | str (s : String)
  | arr (xs : List J)
  | obj (fields : List (String × J))

/-- First-match field access, JS `o[k]` (JS objects have unique keys). -/
def getKey (k : String) : List (String × J) → Option J
  | [] => none
  | (k', v) :: t => if k' = k then some v else getKey k t

/-- JSON escaping for one character (the cases relevant to this model). -/
def escapeChar (c : Char) : List Char :=
  if c = '"' then ['\\', '"']
  else if c = '\\' then ['\\', '\\']
  else if c = '\n' then ['\\', 'n']
  else if c = '\r' then ['\\', 'r']
  else if c = '\t' then ['\\', 't']
  else [c]

/-- `JSON.stringify` of a string value. -/
def renderStr (s : String) : String :=
  ⟨'"' :: (s.data.map escapeChar).flatten ++ ['"']⟩

mutual
/-- `JSON.stringify` (compact form). -/
def renderJ : J → String
  | .null => "null"
  | .bool b => if b then "true" else "false"
  | .num n => n.repr
  | .str s => renderStr s
  | .arr xs => "[" ++ renderJList xs ++ "]"
  | .obj fs => "\x7b" ++ renderJFields fs ++ "\x7d"

def renderJList : List J → String
  | [] => ""
  | [x] => renderJ x
  | x :: y :: t => renderJ x ++ "," ++ renderJList (y :: t)

def renderJFields : List (String × J) → String
  | [] => ""
  | [(k, v)] => renderStr k ++ ":" ++ renderJ v
  | (k, v) :: p :: t => renderStr k ++ ":" ++ renderJ v ++ "," ++ renderJFields (p :: t)
end

/-! ## Schema sanitizer (`removeUriFormat`, proxy.js lines 137-170) -/

/-- Is this field list a sub-schema with `type === 'string'` and
`format === 'uri'`? (proxy.js line 141) -/
def isUriStringSchema (fs : List (String × J)) : Bool :=
  match getKey "type" fs, getKey "format" fs with
  | some (.str t), some (.str f) => t == "string" && f == "uri"
  | _, _ => false

/-- The rest-spread `const { format, ...rest } = schema` (proxy.js line 142). -/
def removeFormatKey (fs : List (String × J)) : List (String × J) :=
  fs.filter (fun p => p.1 != "format")

/-- `typeof v === 'object'` for a parsed JSON value: objects, arrays and
`null` (JS quirk). -/
def typeofObject : J → Bool
  | .obj _ => true
  | .arr _ => true
  | .null => true
  | _ => false

/-- `Array.isArray(v)`. -/
def isArrJ : J → Bool
  | .arr _ => true
  | _ => false

mutual
/-- proxy.js `removeUriFormat`: remove `format` when `type == 'string' &&
format == 'uri'` (returning the remaining fields unprocessed), map over
arrays, and otherwise rebuild the object, recursing into every value; the
`properties` key is special-cased with a `for (const propKey in ...)` walk
when its value has `typeof 'object'`. -/
def removeUriFormat : J → J
  | .obj fs =>
    if isUriStringSchema fs then .obj (removeFormatKey fs)
    else .obj (walkFields fs)
  | .arr xs => .arr (walkList xs)
  | j => j

/-- The `for (const key in schema)` rebuild loop (proxy.js lines 152-168);
the `else if` chain for `items`, `additionalProperties` and the
`anyOf`/`allOf`/`oneOf` lists is kept as in the source. -/
def walkFields : List (String × J) → List (String × J)
  | [] => []
  | (k, v) :: t =>
    (k,
      if k = "properties" && typeofObject v then propsWalk v
      else if k = "items" && typeofObject v then removeUriFormat v
      else if k = "additionalProperties" && typeofObject v then removeUriFormat v
      else if (k = "anyOf" || k = "allOf" || k = "oneOf") && isArrJ v then arrMapRemove v
      else removeUriFormat v)
      :: walkFields t

/-- `schema[key].map(item => removeUriFormat(item))` — the guard guarantees
the argument is an array. -/
def arrMapRemove : J → J
  | .arr xs => .arr (walkList xs)
  | j => j

/-- The `key === 'properties' && typeof schema[key] === 'object'` branch:
`for (const propKey in schema[key])` rebuilds an *object* from the value's
enumerable keys — an object keeps its fields, an array becomes an object
keyed by the decimal indices, `null` becomes the empty object. -/
def propsWalk : J → J
  | .obj ps => .obj (propsFields ps)
  | .arr xs => .obj (propsEnum 0 xs)
  | _ => .obj []

def propsFields : List (String × J) → List (String × J)
  | [] => []
  | (k, v) :: t => (k, removeUriFormat v) :: propsFields t

def propsEnum (i : Nat) : List J → List (String × J)
  | [] => []
  | x :: t => (Nat.repr i, removeUriFormat x) :: propsEnum (i + 1) t

def walkList : List J → List J
  | [] => []
  | x :: t => removeUriFormat x :: walkList t
end

mutual
/-- The schema is a fixed point of the sanitizer: no reachable sub-schema is
a `type:'string'`/`format:'uri'` object, and no `properties` value is an
array or `null` (which the rebuild loop would turn into an object). -/
def cleanS : J → Bool
  | .obj fs => !isUriStringSchema fs && cleanF fs
  | .arr xs => cleanL xs
  | _ => true

def cleanF : List (String × J) → Bool
  | [] => true
  | (k, v) :: t =>
    (if k = "properties" && typeofObject v then propsClean v else cleanS v) && cleanF t

def propsClean : J → Bool
  | .obj ps => cleanPF ps
  | _ => false

def cleanPF : List (String × J) → Bool
  | [] => true
  | (_, v) :: t => cleanS v && cleanPF t

def cleanL : List J → Bool
  | [] => true
  | x :: t => cleanS x && cleanL t
end

mutual
/-- One sanitizer pass fully cleans the schema: every
`type:'string'`/`format:'uri'` sub-schema carries only already-clean other
fields (the early return does not recurse into them), and every `properties`
value is an object or a scalar (not an array). -/
def sanitizable : J → Bool
  | .obj fs =>
    if isUriStringSchema fs then cleanF (removeFormatKey fs)
    else sanF fs
  | .arr xs => sanL xs
  | _ => true

def sanF : List (String × J) → Bool
  | [] => true
  | (k, v) :: t =>
    (if k = "properties" && typeofObject v then propsSan v else sanitizable v) && sanF t

def propsSan : J → Bool
  | .obj ps => sanPF ps
  | .arr _ => false
  | _ => true

def sanPF : List (String × J) → Bool
  | [] => true
  | (_, v) :: t => sanitizable v && sanPF t

def sanL : List J → Bool
  | [] => true
  | x :: t => sanitizable x && sanL t
end

/-- The string carried by a `J.str` value, if any. -/
def strOf : J → Option String
  | .str s => some s
  | _ => none

/-! ## Payload translator (proxy.js lines 83-133) -/

/-- One typed block of an inbound message's content array, duck-typed as in
the source: every field the handler may read is present as an option. -/
structure Item where
  type : String := ""
  text : Option String := none
  id : Option String := none
  name : Option String := none
  input : Option J := none
  tool_use_id : Option String := none
  content : Option J := none

/-- An inbound message's `content`: a string, an array of blocks, or any
other value (`null`, a number, ...), which `normalizeContent` maps to null. -/
inductive MsgContent where
  | str (s : String)
  | items (l : List Item)
  | other

structure InMessage where
  role : String := ""
  content : MsgContent := .other

/-- An entry of `payload.system`. -/
structure SysEntry where
  text : Option String := none
  content : Option MsgContent := none

/-- The parts of the inbound request body that message building reads. -/
structure Payload where
  system : Option (List SysEntry) := none
  messages : Option (List InMessage) := none

/-- A `tool_calls` entry of an outbound message. -/
structure OutToolCall where
  id : Option String := none
  name : Option String := none
  arguments : Option String := none

/-- An outbound (OpenAI-shaped) message; absent fields are `none` / `[]`. -/
structure OutMsg where
  role : String := ""
  content : Option J := none
  tool_calls : List OutToolCall := []
  tool_call_id : Option String := none

/-- JS `Array.prototype.join(' ')`. -/
def joinSep (sep : String) : List String → String
  | [] => ""
  | [x] => x
  | x :: y :: t => x ++ sep ++ joinSep sep (y :: t)

/-- proxy.js `normalizeContent`: a string passes through, an array is the
space-join of the `text` property of every block (an absent `text` joins as
the empty string), anything else is null. -/
def normalizeContent : MsgContent → Option String
  | .str s => some s
  | .items l => some (joinSep " " (l.map (fun it => it.text.getD "")))
  | .other => none

/-- `sysMsg.text || sysMsg.content` (proxy.js line 96). -/
def sysEntryVal (e : SysEntry) : MsgContent :=
  match e.text with
  | some t => if !t.isEmpty then .str t else e.content.getD .other
  | none => e.content.getD .other

/-- The system-message prefix of the outbound message list
(proxy.js lines 93-104). -/
def sysMsgs (p : Payload) : List OutMsg :=
  match p.system with
  | some sys =>
    sys.foldl (fun acc e =>
      match normalizeContent (sysEntryVal e) with
      | some s => if !s.isEmpty then acc ++ [{ role := "system", content := some (.str s) }] else acc
      | none => acc) []
  | none => []

/-- The `tool_use` blocks of a message turned into function-call entries
(proxy.js lines 108-115). -/
def msgToolCalls (m : InMessage) : List OutToolCall :=
  let blocks : List Item := match m.content with | .items l => l | _ => []
  (blocks.filter (fun it => it.type == "tool_use")).map
    (fun it => { id := it.id, name := it.name, arguments := it.input.map renderJ })

/-- The main outbound message built from an inbound message, pushed only if
it has content or tool calls (proxy.js lines 116-120). -/
def mainPart (m : InMessage) : List OutMsg :=
  let toolCalls := msgToolCalls m
  let normalized := normalizeContent m.content
  let contentField : Option J :=
    match normalized with
    | some s => if !s.isEmpty then some (.str s) else none
    | none => none
  if truthyStr normalized || !toolCalls.isEmpty then
    [{ role := m.role, content := contentField, tool_calls := toolCalls }]
  else []

/-- A `tool_result` block turned into a `role: 'tool'` message
(proxy.js lines 124-130); content is `toolResult.text || toolResult.content`. -/
def mkToolMsg (it : Item) : OutMsg :=
  { role := "tool",
    content :=
      (match it.text with
       | some t => if !t.isEmpty then some (.str t) else it.content
       | none => it.content),
    tool_call_id := it.tool_use_id }

/-- The trailing `role: 'tool'` messages contributed by a message's
`tool_result` blocks (proxy.js lines 122-131). -/
def toolResultPart (m : InMessage) : List OutMsg :=
  match m.content with
  | .items l => (l.filter (fun it => it.type == "tool_result")).map mkToolMsg
  | _ => []

/-- The full outbound message list: system messages, then per inbound message
its pushes in source order (proxy.js lines 93-133). -/
def buildMessages (p : Payload) : List OutMsg :=
  let sysPart := sysMsgs p
  match p.messages with
  | some msgs => msgs.foldl (fun acc m => (acc ++ mainPart m) ++ toolResultPart m) sysPart
  | none => sysPart

/-! ## Non-streaming response translator (proxy.js lines 211-260) -/

/-- proxy.js `mapStopReason`. -/
def mapStopReason (finishReason : String) : String :=
  if finishReason = "tool_calls" then "tool_use"
  else if finishReason = "stop" then "end_turn"
  else if finishReason = "length" then "max_tokens"
  else "end_turn"

structure Usage where
  prompt_tokens : Nat := 0
  completion_tokens : Nat := 0
deriving DecidableEq

structure RFunc where
  name : Option String := none
  arguments : String := ""

structure RToolCall where
  id : Option String := none
  func : RFunc := {}

structure RMessage where
  role : Option String := none
  content : Option String := none
  tool_calls : Option (List RToolCall) := none

structure RChoice where
  message : Option RMessage := none
  finish_reason : Option String := none

/-- The upstream non-streaming response body, with `error` holding the
message of an error object when present. -/
structure RData where
  id : Option String := none
  error : Option String := none
  choices : List RChoice := []
  usage : Option Usage := none

/-- proxy.js lines 227-229: `data.id ? data.id.replace('chatcmpl', 'msg') :
'msg_' + <random>`; `rand` stands for the random suffix drawn. -/
def messageIdOf (id : Option String) (rand : String) : String :=
  match id with
  | some s => if !s.isEmpty then jsReplaceFirst s "chatcmpl" "msg" else "msg_" ++ rand
  | none => "msg_" ++ rand

/-- A content block of the translated (Anthropic-shaped) response. -/
inductive ABlock where
  | text (text : Option String)
  | toolUse (id : Option String) (name : Option String) (input : J)

/-- The translated non-streaming response. -/
structure AResponse where
  content : List ABlock
  id : String
  model : String
  role : Option String
  stop_reason : String
  stop_sequence : Option String := none
  input_tokens : Nat
  output_tokens : Nat

/-- JS `content.split(' ').length` where `content` may be any value:
only a string succeeds, anything else throws a `TypeError`. -/
def splitSpaceLen : Option J → Except String Nat
  | some (.str s) => .ok (wordCount s)
  | some _ => .error "TypeError: content.split is not a function"
  | none => .error "TypeError: Cannot read properties of undefined (reading 'split')"

/-- The `messages.reduce((acc, msg) => acc + msg.content.split(' ').length, 0)`
fallback of proxy.js line 253; throws on a message without string content. -/
def estimateInputTokens (msgs : List OutMsg) : Except String Nat :=
  msgs.foldlM (fun acc m => (splitSpaceLen m.content).map (acc + ·)) 0

/-- proxy.js lines 211-260: translate one complete upstream response.
`parseJson` abstracts the platform `JSON.parse`; `rand` the random id
suffix; `messages` is the outbound message list (used by the usage
fallback).  Any JS exception is an `Except.error`. -/
def nonStreamingResponse (parseJson : String → Except String J) (rand : String)
    (model : String) (messages : List OutMsg) (data : RData) :
    Except String AResponse := do
  if let some m := data.error then throw m
  let choice ← match data.choices.head? with
    | some c => pure c
    | none => throw "TypeError: Cannot read properties of undefined (reading 'message')"
  let openaiMessage ← match choice.message with
    | some m => pure m
    | none => throw "TypeError: Cannot read properties of undefined (reading 'tool_calls')"
  let stopReason := mapStopReason (choice.finish_reason.getD "")
  let toolCalls := openaiMessage.tool_calls.getD []
  let messageId := messageIdOf data.id rand
  let toolBlocks ← toolCalls.mapM (fun tc =>
    (parseJson tc.func.arguments).map (fun inp => ABlock.toolUse tc.id tc.func.name inp))
  let inputTokens ← match data.usage with
    | some u => pure u.prompt_tokens
    | none => estimateInputTokens messages
  let outputTokens ← match data.usage with
    | some u => pure u.completion_tokens
    | none =>
      match openaiMessage.content with
      | some s => pure (wordCount s)
      | none => throw "TypeError: Cannot read properties of null (reading 'split')"
  return { content := ABlock.text openaiMessage.content :: toolBlocks,
           id := messageId, model := model, role := openaiMessage.role,
           stop_reason := stopReason,
           input_tokens := inputTokens, output_tokens := outputTokens }

/-! ## Handler-level error replies (proxy.js lines 201-208 and 502-508) -/

/-- The JSON error body `{ error: <message> }`. -/
structure ErrorBody where
  error : String
deriving DecidableEq

/-- `fetch` `Response.ok`: status in the 2xx range. -/
def upstreamOk (status : Nat) : Bool := 200 ≤ status && status ≤ 299

/-- proxy.js lines 201-208: the reply written when the upstream HTTP call is
non-2xx — `some (status, body)` if an error response is written, `none` if
nothing is written. -/
def non2xxReply (status : Nat) (errorDetails : String)
    (sent hasStartedStreaming connectionClosed : Bool) : Option (Nat × ErrorBody) :=
  if !sent && !hasStartedStreaming && !connectionClosed then
    some (status, ⟨errorDetails⟩)
  else none

/-- proxy.js lines 502-508: the catch block of the route handler. -/
def catchReply (message : String)
    (sent hasStartedStreaming connectionClosed : Bool) : Option (Nat × ErrorBody) :=
  if !sent && !hasStartedStreaming && !connectionClosed then
    some (500, ⟨message⟩)
  else none

/-- The outcome of a non-streaming request as seen by the client. -/
inductive HandlerOutcome where
  | success (r : AResponse)
  | failure (status : Nat) (body : ErrorBody)
  | silent

/-- The non-streaming path of the route handler: translate, and on a thrown
exception fall into the catch block (no bytes sent, streaming not started). -/
def handleNonStreaming (parseJson : String → Except String J)
    (rand model : String) (p : Payload) (data : RData) : HandlerOutcome :=
  match nonStreamingResponse parseJson rand model (buildMessages p) data with
  | .ok r => .success r
  | .error m =>
    match catchReply m false false false with
    | some (st, b) => .failure st b
    | none => .silent

/-! ## Streaming re-framer (proxy.js lines 264-501)

The downstream SSE events are modeled by `Ev`; writes that depend on I/O
success (`sendSSE` failure, header-write failure) are outside the pure
model, which describes the event sequence on an open, healthy connection. -/

inductive BlockKind where
  | text
  | toolUse (id : Option String) (name : Option String)
deriving DecidableEq

inductive DeltaKind where
  | textDelta (text : String)
  | thinkingDelta (thinking : String)
  | inputJsonDelta (partial_json : String)
deriving DecidableEq

/-- One emitted downstream SSE event (plus the header write and the final
`reply.raw.end()`), with the payload fields the claims talk about. -/
inductive Ev where
  | header
  | messageStart (content : List BlockKind) (inputTokens outputTokens : Nat)
  | ping
  | contentBlockStart (index : Nat) (block : BlockKind)
  | contentBlockDelta (index : Nat) (delta : DeltaKind)
  | contentBlockStop (index : Nat)
  | messageDelta (stopReason : String) (outputTokens : Nat)
  | messageStop
  | endResponse
deriving DecidableEq

/-- One entry of `delta.tool_calls`; `name`/`arguments` stand for
`toolCall.function.name` / `toolCall.function.arguments`. -/
structure ToolCall where
  index : Nat := 0
  id : Option String := none
  name : Option String := none
  arguments : Option String := none

structure Delta where
  content : Option String := none
  reasoning : Option String := none
  tool_calls : Option (List ToolCall) := none

structure Choice where
  delta : Option Delta := none

/-- A successfully `JSON.parse`d upstream frame, reduced to the fields the
handler reads; `error` holds the message of an `error` object if present. -/
structure Frame where
  error : Option String := none
  usage : Option Usage := none
  choices : List Choice := []

/-- The outcome of `JSON.parse` on a candidate data string: a frame, or an
exception carrying its message. -/
inductive ParseOutcome where
  | ok (frame : Frame)
  | err (message : String)

/-- The per-request mutable state of the streaming loop (proxy.js lines
264-319).  The line-split carryover `buffer` is a local of the read loop and
is threaded separately by `processChunk`. -/
structure SState where
  isSucceeded : Bool := false
  isStreamingStarted : Bool := false
  hasStartedStreaming : Bool := false
  connectionClosed : Bool := false
  terminated : Bool := false
  textBlockStarted : Bool := false
  encounteredToolCall : Bool := false
  accumulatedContent : String := ""
  accumulatedReasoning : String := ""
  usage : Option Usage := none
  toolCallAccumulators : List (Nat × String) := []
  incompleteDataLine : String := ""

def initState : SState := {}

/-- `toolCallAccumulators[idx]`. -/
def lookupAcc (i : Nat) : List (Nat × String) → Option String
  | [] => none
  | (k, v) :: t => if k = i then some v else lookupAcc i t

/-- `toolCallAccumulators[idx] = v`.  The association list is kept sorted by
key because a JS object enumerates integer-like keys in ascending order. -/
def setAcc (i : Nat) (v : String) : List (Nat × String) → List (Nat × String)
  | [] => [(i, v)]
  | (k, w) :: t =>
    if i < k then (i, v) :: (k, w) :: t
    else if i = k then (i, v) :: t
    else (k, w) :: setAcc i v t

/-- proxy.js `sendSuccessMessage` (lines 267-306): at most once, write the
SSE headers, `message_start` with empty content and zero usage, and the
initial `ping`. -/
def sendSuccessMessage (st : SState) : SState × List Ev :=
  if st.isSucceeded || st.connectionClosed || st.hasStartedStreaming then (st, [])
  else
    ({ st with isSucceeded := true, isStreamingStarted := true, hasStartedStreaming := true },
     [.header, .messageStart [] 0 0, .ping])

/-- One iteration of the `for (const toolCall of delta.tool_calls)` loop
(proxy.js lines 403-434). -/
def processToolCall (st : SState) (tc : ToolCall) : SState × List Ev :=
  let st := { st with encounteredToolCall := true }
  let (st, startEvs) :=
    match lookupAcc tc.index st.toolCallAccumulators with
    | none =>
      ({ st with toolCallAccumulators := setAcc tc.index "" st.toolCallAccumulators },
       [Ev.contentBlockStart tc.index (.toolUse tc.id tc.name)])
    | some _ => (st, ([] : List Ev))
  let newArgs := tc.arguments.getD ""
  let oldArgs := (lookupAcc tc.index st.toolCallAccumulators).getD ""
  if oldArgs.length < newArgs.length then
    ({ st with toolCallAccumulators := setAcc tc.index newArgs st.toolCallAccumulators },
     startEvs ++ [Ev.contentBlockDelta tc.index (.inputJsonDelta (subFrom newArgs oldArgs.length))])
  else (st, startEvs)

def processToolCalls (st : SState) : List ToolCall → SState × List Ev
  | [] => (st, [])
  | tc :: rest =>
    let (s1, e1) := processToolCall st tc
    let (s2, e2) := processToolCalls s1 rest
    (s2, e1 ++ e2)

/-- Lines 394-396: `if (!isStreamingStarted && !connectionClosed)
sendSuccessMessage()`. -/
def startPrelude (st : SState) : SState × List Ev :=
  if !st.isStreamingStarted && !st.connectionClosed then sendSuccessMessage st
  else (st, [])

/-- Lines 398-400: `if (parsed.usage) usage = parsed.usage`. -/
def captureUsage (st : SState) (f : Frame) : SState :=
  match f.usage with
  | some u => { st with usage := some u }
  | none => st

/-- Lines 436-446 / 457-467: lazily open the single text block. -/
def openTextBlock (st : SState) : SState × List Ev :=
  if !st.textBlockStarted then
    ({ st with textBlockStarted := true }, [Ev.contentBlockStart 0 .text])
  else (st, [])

/-- The body run for a successfully parsed, error-free frame (proxy.js lines
394-477): maybe start streaming, capture usage, then dispatch on the first
choice's delta — tool calls, content, or reasoning. -/
def processFrameOk (st : SState) (f : Frame) : SState × List Ev :=
  let (st, evs0) := startPrelude st
  let st := captureUsage st f
  let delta := f.choices.head?.bind (·.delta)
  match delta with
  | none => (st, evs0)
  | some d =>
    match d.tool_calls with
    | some tcs =>
      if !st.connectionClosed then
        let (st, evs1) := processToolCalls st tcs
        (st, evs0 ++ evs1)
      else (st, evs0)
    | none =>
      if truthyStr d.content && !st.connectionClosed then
        let (st, evs1) := openTextBlock st
        let c := d.content.getD ""
        ({ st with accumulatedContent := st.accumulatedContent ++ c },
         evs0 ++ evs1 ++ [Ev.contentBlockDelta 0 (.textDelta c)])
      else if truthyStr d.reasoning && !st.connectionClosed then
        let (st, evs1) := openTextBlock st
        let r := d.reasoning.getD ""
        ({ st with accumulatedReasoning := st.accumulatedReasoning ++ r },
         evs0 ++ evs1 ++ [Ev.contentBlockDelta 0 (.thinkingDelta r)])
      else (st, evs0)

/-- The catch block of the per-line try (proxy.js lines 478-490): a parse (or
thrown) error whose message looks like a truncation buffers the data string
into `incompleteDataLine`; any other error is skipped. -/
def catchClassify (st : SState) (m : String) (dataStr : String) : SState :=
  if jsIncludes m "Unterminated" || jsIncludes m "Unexpected end" ||
      jsIncludes m "Unexpected token" then
    { st with incompleteDataLine := dataStr }
  else st

/-- A parsed frame: the `if (parsed.error) throw` of line 391 lands in the
same catch block as a parse failure; otherwise the frame body runs. -/
def processParsedFrame (st : SState) (f : Frame) (dataStr : String) : SState × List Ev :=
  match f.error with
  | some m => (catchClassify st m dataStr, [])
  | none => processFrameOk st f

/-- The `dataStr === '[DONE]'` branch (proxy.js lines 348-385): close open
blocks, emit `message_delta` (stop reason and output tokens), `message_stop`,
end the response, and return from the handler (`terminated`). -/
def processDone (st : SState) : SState × List Ev :=
  let stopEvs : List Ev :=
    if st.encounteredToolCall then
      if st.connectionClosed then []
      else st.toolCallAccumulators.map (fun p => Ev.contentBlockStop p.1)
    else if st.textBlockStarted && !st.connectionClosed then [Ev.contentBlockStop 0]
    else []
  let finalEvs : List Ev :=
    if !st.connectionClosed then
      [Ev.messageDelta (if st.encounteredToolCall then "tool_use" else "end_turn")
         (match st.usage with
          | some u => u.completion_tokens
          | none => wordCount st.accumulatedContent + wordCount st.accumulatedReasoning),
       Ev.messageStop, Ev.endResponse]
    else []
  ({ st with terminated := true }, stopEvs ++ finalEvs)

/-- Process one reassembled candidate data string (proxy.js lines 348-490). -/
def processDataStr (parse : String → ParseOutcome) (st : SState) (dataStr : String) :
    SState × List Ev :=
  if dataStr = "[DONE]" then processDone st
  else
    match parse dataStr with
    | .ok f => processParsedFrame st f dataStr
    | .err m => (catchClassify st m dataStr, [])

/-- `trimmed.replace(/^data:\s*/, '')` for a string known to start with
`data:`. -/
def stripDataTag (s : String) : String := ⟨(s.data.drop 5).dropWhile jsWs⟩

/-- Process one complete line of the upstream byte stream (proxy.js lines
336-491): skip blank and non-`data:` lines, strip the tag, glue a pending
incomplete data line, and process the result.  A terminated handler (after
`[DONE]`'s `return`) or a closed connection processes nothing. -/
def processLine (parse : String → ParseOutcome) (st : SState) (line : String) :
    SState × List Ev :=
  if st.terminated then (st, [])
  else if st.connectionClosed then (st, [])
  else
    let trimmed := jsTrim line
    if trimmed.isEmpty || !jsStartsWith trimmed "data:" then (st, [])
    else
      let dataStr := st.incompleteDataLine ++ stripDataTag trimmed
      processDataStr parse { st with incompleteDataLine := "" } dataStr

def processLines (parse : String → ParseOutcome) (st : SState) :
    List String → SState × List Ev
  | [] => (st, [])
  | l :: rest =>
    let (s1, e1) := processLine parse st l
    let (s2, e2) := processLines parse s1 rest
    (s2, e1 ++ e2)

/-- JS `buffer.split('\n')`. -/
def splitNl (s : String) : List String := (splitChA '\n' s.data).map (⟨·⟩)

/-- One read-loop iteration on a decoded chunk (proxy.js lines 321-345):
append to the carryover buffer, split on newline, keep the trailing
(possibly partial) line as the new buffer, process the complete lines. -/
def processChunk (parse : String → ParseOutcome) (sb : SState × String) (chunk : String) :
    (SState × String) × List Ev :=
  let (st, buffer) := sb
  if st.terminated || st.connectionClosed then (sb, [])
  else
    let buf := buffer ++ chunk
    let parts := splitNl buf
    let newBuffer := (parts.getLast?).getD ""
    let completeLines := parts.dropLast
    let (st', evs) := processLines parse st completeLines
    ((st', newBuffer), evs)

def processChunks (parse : String → ParseOutcome) (sb : SState × String) :
    List String → (SState × String) × List Ev
  | [] => (sb, [])
  | c :: rest =>
    let (sb1, e1) := processChunk parse sb c
    let (sb2, e2) := processChunks parse sb1 rest
    (sb2, e1 ++ e2)

/-- A stream of already-parsed frames (each one successfully `JSON.parse`d
data line).  An error-bearing frame is thrown and caught; at the frame level
its only effect (re-buffering the raw data string) is invisible, which
passing the empty data string makes exact. -/
def processFrames (st : SState) : List Frame → SState × List Ev
  | [] => (st, [])
  | f :: rest =>
    let (s1, e1) := processParsedFrame st f ""
    let (s2, e2) := processFrames s1 rest
    (s2, e1 ++ e2)

/-! ## Observers and concrete inputs used by the theorems -/

def isHeaderEv : Ev → Bool
  | .header => true
  | _ => false

def isMessageStartEv : Ev → Bool
  | .messageStart _ _ _ => true
  | _ => false

def isPingEv : Ev → Bool
  | .ping => true
  | _ => false

def isContentBlockDeltaEv : Ev → Bool
  | .contentBlockDelta _ _ => true
  | _ => false

def isMessageDeltaEv : Ev → Bool
  | .messageDelta _ _ => true
  | _ => false

def isStopEv : Ev → Bool
  | .contentBlockStop _ => true
  | _ => false

/-- The `partial_json` fragments emitted as `input_json_delta`
`content_block_delta` events at a given tool-call index. -/
def jsonDeltasAt (i : Nat) : List Ev → List String
  | [] => []
  | .contentBlockDelta j (.inputJsonDelta s) :: t =>
    if j = i then s :: jsonDeltasAt i t else jsonDeltasAt i t
  | _ :: t => jsonDeltasAt i t

/-- Concatenation of a list of strings (JS `''.concat(...)` / `join('')`). -/
def concatStrs : List String → String
  | [] => ""
  | s :: t => s ++ concatStrs t

/-- Is each string a prefix of the next one (a prefix-extension chain)? -/
def prefixChain : List String → Bool
  | [] => true
  | [_] => true
  | a :: b :: t => a.data.isPrefixOf b.data && prefixChain (b :: t)

/-- The last element of a string list, or `""`. -/
def lastStr : List String → String
  | [] => ""
  | [a] => a
  | _ :: b :: t => lastStr (b :: t)

/-- The entries of `delta.tool_calls` that the tool-call branch of a frame
processes: none when the frame carries an error, no delta, or no
`tool_calls` field. -/
def frameToolCalls (f : Frame) : List ToolCall :=
  match f.error with
  | some _ => []
  | none =>
    match f.choices.head?.bind (·.delta) with
    | some d => (d.tool_calls).getD []
    | none => []

/-- The cumulative argument strings of the tool calls with a given index. -/
def argsOfTcs (i : Nat) (tcs : List ToolCall) : List String :=
  (tcs.filter (fun tc => tc.index == i)).map (fun tc => tc.arguments.getD "")

/-- The cumulative argument strings carried by a frame list for one index. -/
def argsAt (i : Nat) (fs : List Frame) : List String :=
  argsOfTcs i (fs.foldr (fun f acc => frameToolCalls f ++ acc) [])

/-- The tool-call indices that were used (have an accumulator). -/
def usedIndices (st : SState) : List Nat := st.toolCallAccumulators.map (·.1)

/-- Every key of the list is above the bound, in strictly ascending order. -/
def keysAbove (b : Nat) : List (Nat × String) → Bool
  | [] => true
  | (k, _) :: t => decide (b < k) && keysAbove k t

/-- Keys of the accumulator list are strictly ascending. -/
def ascKeys : List (Nat × String) → Bool
  | [] => true
  | (k, _) :: t => keysAbove k t

/-- The tool-call indices mentioned by a frame list. -/
def framesMention (j : Nat) (fs : List Frame) : Bool :=
  fs.any (fun f => (frameToolCalls f).any (fun tc => tc.index == j))

/-- The usage carried by one frame, visible only when the frame is
error-free. -/
def frameUsage (f : Frame) : Option Usage :=
  match f.error with
  | some _ => none
  | none => f.usage

/-- The usage object captured by the streaming loop over a frame list: the
last `usage` field seen on an error-free frame. -/
def capturedUsage : List Frame → Option Usage
  | [] => none
  | f :: rest =>
    match capturedUsage rest with
    | some u => some u
    | none => frameUsage f

/-- Did the streaming loop see any tool call in the frame list? -/
def sawToolCall (fs : List Frame) : Bool :=
  fs.any (fun f => !(frameToolCalls f).isEmpty)

/-- The per-message contribution to the outbound message list: the main
message (if pushed) followed by the `role: 'tool'` messages of its
`tool_result` blocks. -/
def perMessage (m : InMessage) : List OutMsg :=
  mainPart m ++ toolResultPart m

def perMessages : List InMessage → List OutMsg
  | [] => []
  | m :: t => perMessage m ++ perMessages t

/-- The content blocks of a message whose content is an array. -/
def itemsOf (m : InMessage) : List Item :=
  match m.content with
  | .items l => l
  | _ => []

/-- Is an `Except` result an error? -/
def isErrE {α : Type} : Except String α → Bool
  | .error _ => true
  | .ok _ => false

/-- The HTTP status of a failure outcome. -/
def outcomeStatus : HandlerOutcome → Option Nat
  | .failure st _ => some st
  | _ => none

/-- A sub-schema `{"type": "string", "format": "uri"}`. -/
def uriLeaf : J := .obj [("type", .str "string"), ("format", .str "uri")]

/-- A uri-format string schema that carries another one inside its own
`allOf` — the early return of `removeUriFormat` leaves the inner one
untouched. -/
def nestedUri : J :=
  .obj [("type", .str "string"), ("format", .str "uri"), ("allOf", .arr [uriLeaf])]

/-- The first element of a schema's `allOf` array, if any. -/
def allOfHead (j : J) : Option J :=
  match j with
  | .obj fs =>
    match getKey "allOf" fs with
    | some (.arr (x :: _)) => some x
    | _ => none
  | _ => none

/-- Does an object carry a `format` key? -/
def hasFormatKey : J → Bool
  | .obj fs => (getKey "format" fs).isSome
  | _ => false

/-- The spec's example: a uri-format leaf nested under `properties`,
`items` and `anyOf`. -/
def specSchema : J :=
  .obj [("type", .str "object"),
        ("properties", .obj [("u", uriLeaf)]),
        ("items", uriLeaf),
        ("anyOf", .arr [uriLeaf])]

/-- Inbound message content for the C4 counterexample: a text block and a
`tool_result` block that carries a `text` field. -/
def mergeItems : List Item :=
  [{ type := "text", text := some "hi" },
   { type := "tool_result", tool_use_id := some "t1", text := some "res" }]

def mergePayload : Payload :=
  { messages := some [{ role := "user", content := .items mergeItems }] }

/-- A content array holding a single `tool_use` block. -/
def toolOnlyItems : List Item :=
  [{ type := "tool_use", id := some "tu1", name := some "get",
     input := some (J.obj []) }]

/-- Inbound payload whose only message holds a single `tool_use` block, so
the outbound message has `tool_calls` but no `content` field. -/
def toolOnlyPayload : Payload :=
  { messages := some [{ role := "assistant", content := .items toolOnlyItems }] }

/-- Is the event part of the start-of-stream block (header write,
`message_start`, or `ping`)? -/
def startEvB (e : Ev) : Bool := isHeaderEv e || isMessageStartEv e || isPingEv e

/-- The three streaming-start flags agree and the connection is open — true
of every state reachable from `initState` in the pure model. -/
def goodFlags (st : SState) : Prop :=
  st.isSucceeded = st.isStreamingStarted
  ∧ st.hasStartedStreaming = st.isStreamingStarted
  ∧ st.connectionClosed = false

/-- Does processing this line trigger the streaming-start block?  It does
exactly when the handler is still live, the line is a `data:` line whose
(glued) payload is not the `[DONE]` sentinel, and it parses to an error-free
frame — whether or not that frame carries any content. -/
def lineTriggers (parse : String → ParseOutcome) (st : SState) (line : String) : Bool :=
  if st.terminated || st.connectionClosed then false
  else
    let trimmed := jsTrim line
    if trimmed.isEmpty || !jsStartsWith trimmed "data:" then false
    else
      let dataStr := st.incompleteDataLine ++ stripDataTag trimmed
      if dataStr = "[DONE]" then false
      else
        match parse dataStr with
        | .ok f => f.error.isNone
        | .err _ => false

/-- A parse function producing an empty frame (no error, no usage, no
choices — hence no content) for every data string. -/
def parseEmptyFrame : String → ParseOutcome := fun _ => .ok {}

/-- Does the character list contain a newline? -/
def hasNl : List Char → Bool
  | [] => false
  | c :: t => c == '\n' || hasNl t

/-- The string holds no newline — true of every carryover buffer the read
loop produces, since the buffer is always the trailing part of a
newline-split. -/
def nlFree (s : String) : Bool := !hasNl s.data

/-- A frame carrying one tool-call delta for index 0 with the given
cumulative argument string. -/
def toolFrame (s : String) : Frame :=
  { choices := [{ delta := some { tool_calls := some [{ index := 0, arguments := some s }] } }] }

/-- A state whose index-0 accumulator already holds `"ab"`. -/
def accWitnessState : SState :=
  { toolCallAccumulators := [(0, "ab")] }

/-- A duplicate tool-call delta: cumulative arguments equal to what is
already accumulated. -/
def dupToolCall : ToolCall :=
  { index := 0, arguments := some "ab" }

/-- An upstream non-streaming response with no `usage` object. -/
def respNoUsage : RData :=
  { id := some "chatcmpl-1",
    choices := [{ message := some { role := some "assistant", content := some "hello" },
                  finish_reason := some "stop" }] }

/-! ## Helper lemmas -/

theorem replFirstL_of_prefixed (pat rep l : List Char) (hne : pat ≠ [])
    (h : pat.isPrefixOf l = true) :
    replFirstL pat rep l = rep ++ l.drop pat.length := by
  cases l with
  | nil =>
    cases pat with
    | nil => exact absurd rfl hne
    | cons c t => simp [List.isPrefixOf] at h
  | cons c t => simp [replFirstL, h]

theorem dataEq {a b : String} (h : a.data = b.data) : a = b := by
  cases a
  cases b
  exact congrArg String.mk h

theorem strLen_eq (s : String) : s.length = s.data.length := by
  cases s; rfl

theorem subFrom_data (s : String) (n : Nat) : (subFrom s n).data = s.data.drop n := rfl

theorem append_data (a b : String) : (a ++ b).data = a.data ++ b.data :=
  String.data_append a b

theorem strAppend_assoc (a b c : String) : (a ++ b) ++ c = a ++ (b ++ c) := by
  apply dataEq
  simp [append_data]

theorem prefix_of_isPrefixOf {a b : List Char} (h : a.isPrefixOf b = true) : a <+: b :=
  List.isPrefixOf_iff_prefix.mp h

theorem isPrefixOf_of_prefix {a b : List Char} (h : a <+: b) : a.isPrefixOf b = true :=
  List.isPrefixOf_iff_prefix.mpr h

theorem isPrefixOf_self (a : List Char) : a.isPrefixOf a = true :=
  isPrefixOf_of_prefix (List.prefix_refl a)

theorem str_eq_of_prefix_ge {x y : String} (h : x.data.isPrefixOf y.data = true)
    (hle : y.data.length ≤ x.data.length) : x = y := by
  obtain ⟨t, ht⟩ := prefix_of_isPrefixOf h
  have hl : t.length = 0 := by
    rw [← ht, List.length_append] at hle
    omega
  have ht0 : t = [] := List.eq_nil_of_length_eq_zero hl
  subst ht0
  apply dataEq
  rw [← ht, List.append_nil]

theorem subFrom_self (x : String) : subFrom x x.length = "" := by
  apply dataEq
  show x.data.drop x.length = "".data
  rw [strLen_eq]
  simp

theorem subFrom_chain {x y z : String} (h1 : x.data.isPrefixOf y.data = true)
    (h2 : y.data.isPrefixOf z.data = true) :
    subFrom y x.length ++ subFrom z y.length = subFrom z x.length := by
  obtain ⟨u, hu⟩ := prefix_of_isPrefixOf h2
  obtain ⟨t, ht⟩ := prefix_of_isPrefixOf h1
  apply dataEq
  rw [append_data, subFrom_data, subFrom_data, subFrom_data, strLen_eq, strLen_eq,
    ← hu, ← ht, List.drop_left, List.drop_left, List.append_assoc, List.drop_left]

theorem chain_cons_elim {a b : String} {t : List String}
    (h : prefixChain (a :: b :: t) = true) :
    a.data.isPrefixOf b.data = true ∧ prefixChain (b :: t) = true := by
  simpa [prefixChain, Bool.and_eq_true] using h

theorem chain_head_prefix_last {x : String} {l : List String}
    (h : prefixChain (x :: l) = true) :
    x.data.isPrefixOf (lastStr (x :: l)).data = true := by
  induction l generalizing x with
  | nil => exact isPrefixOf_self x.data
  | cons y t ih =>
    obtain ⟨h1, h2⟩ := chain_cons_elim h
    have h3 := ih h2
    show x.data.isPrefixOf (lastStr (y :: t)).data = true
    exact isPrefixOf_of_prefix
      ((prefix_of_isPrefixOf h1).trans (prefix_of_isPrefixOf h3))

theorem lastStr_cons_cons (a b : String) (t : List String) :
    lastStr (a :: b :: t) = lastStr (b :: t) := rfl

theorem chain_append_split (a : String) (l1 l2 : List String)
    (h : prefixChain (a :: (l1 ++ l2)) = true) :
    prefixChain (a :: l1) = true ∧ prefixChain (lastStr (a :: l1) :: l2) = true := by
  induction l1 generalizing a with
  | nil => exact ⟨rfl, h⟩
  | cons b t ih =>
    obtain ⟨h1, h2⟩ := chain_cons_elim h
    obtain ⟨h3, h4⟩ := ih b h2
    refine ⟨?_, ?_⟩
    · show (a.data.isPrefixOf b.data && prefixChain (b :: t)) = true
      simp [h1, h3]
    · simpa [lastStr_cons_cons] using h4

theorem lastStr_append (a : String) (l1 l2 : List String) :
    lastStr (a :: (l1 ++ l2)) = lastStr (lastStr (a :: l1) :: l2) := by
  induction l1 generalizing a with
  | nil => rfl
  | cons b t ih => simpa [lastStr_cons_cons] using ih b

theorem lookupAcc_setAcc_self (i : Nat) (v : String) (l : List (Nat × String)) :
    lookupAcc i (setAcc i v l) = some v := by
  induction l with
  | nil => simp [setAcc, lookupAcc]
  | cons p t ih =>
    obtain ⟨k, w⟩ := p
    by_cases h1 : i < k
    · simp [setAcc, h1, lookupAcc]
    · by_cases h2 : i = k
      · simp [setAcc, h1, h2, lookupAcc]
      · have hk : ¬(k = i) := fun hh => h2 hh.symm
        simp [setAcc, h1, h2, lookupAcc, hk, ih]

theorem lookupAcc_setAcc_ne (i j : Nat) (v : String) (l : List (Nat × String))
    (h : j ≠ i) : lookupAcc j (setAcc i v l) = lookupAcc j l := by
  have hij : ¬(i = j) := fun hh => h hh.symm
  induction l with
  | nil => simp [setAcc, lookupAcc, hij]
  | cons p t ih =>
    obtain ⟨k, w⟩ := p
    by_cases h1 : i < k
    · simp [setAcc, h1, lookupAcc, hij]
    · by_cases h2 : i = k
      · subst h2
        simp [setAcc, h1, lookupAcc, hij]
      · simp [setAcc, h1, h2, lookupAcc, ih]

theorem jsonDeltasAt_append (i : Nat) (e1 e2 : List Ev) :
    jsonDeltasAt i (e1 ++ e2) = jsonDeltasAt i e1 ++ jsonDeltasAt i e2 := by
  induction e1 with
  | nil => rfl
  | cons e t ih =>
    cases e with
    | contentBlockDelta j d =>
      cases d with
      | inputJsonDelta s =>
        by_cases hj : j = i <;> simp [jsonDeltasAt, hj, ih]
      | textDelta s => simpa [jsonDeltasAt] using ih
      | thinkingDelta s => simpa [jsonDeltasAt] using ih
    | header => simpa [jsonDeltasAt] using ih
    | messageStart c a b => simpa [jsonDeltasAt] using ih
    | ping => simpa [jsonDeltasAt] using ih
    | contentBlockStart j b => simpa [jsonDeltasAt] using ih
    | contentBlockStop j => simpa [jsonDeltasAt] using ih
    | messageDelta r n => simpa [jsonDeltasAt] using ih
    | messageStop => simpa [jsonDeltasAt] using ih
    | endResponse => simpa [jsonDeltasAt] using ih

theorem concatStrs_append (l1 l2 : List String) :
    concatStrs (l1 ++ l2) = concatStrs l1 ++ concatStrs l2 := by
  induction l1 with
  | nil =>
    apply dataEq
    simp [concatStrs, append_data]
  | cons s t ih => simp [concatStrs, ih, strAppend_assoc]

theorem argsOfTcs_cons_eq (i : Nat) (tc : ToolCall) (rest : List ToolCall)
    (h : tc.index = i) :
    argsOfTcs i (tc :: rest) = (tc.arguments.getD "") :: argsOfTcs i rest := by
  have hb : (tc.index == i) = true := by simpa using h
  simp [argsOfTcs, hb]

theorem argsOfTcs_cons_ne (i : Nat) (tc : ToolCall) (rest : List ToolCall)
    (h : ¬tc.index = i) :
    argsOfTcs i (tc :: rest) = argsOfTcs i rest := by
  have hb : (tc.index == i) = false := by simpa using h
  simp [argsOfTcs, hb]

theorem strAppend_empty (x : String) : x ++ "" = x := by
  apply dataEq
  simp [append_data]

theorem concatStrs_single (s : String) : concatStrs [s] = s := by
  show s ++ concatStrs [] = s
  exact strAppend_empty s

theorem processToolCalls_cons (st : SState) (tc : ToolCall) (rest : List ToolCall) :
    processToolCalls st (tc :: rest)
      = ((processToolCalls (processToolCall st tc).1 rest).1,
         (processToolCall st tc).2 ++ (processToolCalls (processToolCall st tc).1 rest).2) := rfl

theorem processToolCall_step (st : SState) (tc : ToolCall) :
    (lookupAcc tc.index (processToolCall st tc).1.toolCallAccumulators).getD ""
        = (if ((lookupAcc tc.index st.toolCallAccumulators).getD "").length
              < (tc.arguments.getD "").length
           then tc.arguments.getD ""
           else (lookupAcc tc.index st.toolCallAccumulators).getD "")
    ∧ jsonDeltasAt tc.index (processToolCall st tc).2
        = (if ((lookupAcc tc.index st.toolCallAccumulators).getD "").length
              < (tc.arguments.getD "").length
           then [subFrom (tc.arguments.getD "")
                  ((lookupAcc tc.index st.toolCallAccumulators).getD "").length]
           else [])
    ∧ (∀ j, ¬tc.index = j →
        lookupAcc j (processToolCall st tc).1.toolCallAccumulators
            = lookupAcc j st.toolCallAccumulators
        ∧ jsonDeltasAt j (processToolCall st tc).2 = []) := by
  cases hlk : lookupAcc tc.index st.toolCallAccumulators with
  | none =>
    by_cases hlt : ((0 : Nat) < (tc.arguments.getD "").length)
    · refine ⟨?_, ?_, ?_⟩
      · simp [processToolCall, hlk, lookupAcc_setAcc_self, hlt]
      · simp [processToolCall, hlk, lookupAcc_setAcc_self, hlt, jsonDeltasAt]
      · intro j hj
        have hj' : ¬j = tc.index := fun hh => hj hh.symm
        constructor
        · simp [processToolCall, hlk, lookupAcc_setAcc_self, hlt,
            lookupAcc_setAcc_ne _ _ _ _ hj']
        · simp [processToolCall, hlk, lookupAcc_setAcc_self, hlt, jsonDeltasAt, hj]
    · refine ⟨?_, ?_, ?_⟩
      · simp [processToolCall, hlk, lookupAcc_setAcc_self, hlt]
      · simp [processToolCall, hlk, lookupAcc_setAcc_self, hlt, jsonDeltasAt]
      · intro j hj
        have hj' : ¬j = tc.index := fun hh => hj hh.symm
        constructor
        · simp [processToolCall, hlk, lookupAcc_setAcc_self, hlt,
            lookupAcc_setAcc_ne _ _ _ _ hj']
        · simp [processToolCall, hlk, lookupAcc_setAcc_self, hlt, jsonDeltasAt, hj]
  | some a =>
    by_cases hlt : (a.length < (tc.arguments.getD "").length)
    · refine ⟨?_, ?_, ?_⟩
      · simp [processToolCall, hlk, lookupAcc_setAcc_self, hlt]
      · simp [processToolCall, hlk, hlt, jsonDeltasAt]
      · intro j hj
        have hj' : ¬j = tc.index := fun hh => hj hh.symm
        constructor
        · simp [processToolCall, hlk, hlt, lookupAcc_setAcc_ne _ _ _ _ hj']
        · simp [processToolCall, hlk, hlt, jsonDeltasAt, hj]
    · refine ⟨?_, ?_, ?_⟩
      · simp [processToolCall, hlk, hlt]
      · simp [processToolCall, hlk, hlt, jsonDeltasAt]
      · intro j hj
        constructor
        · simp [processToolCall, hlk, hlt]
        · simp [processToolCall, hlk, hlt, jsonDeltasAt, hj]

theorem processToolCalls_suffix (i : Nat) :
    ∀ (tcs : List ToolCall) (st : SState),
      prefixChain (((lookupAcc i st.toolCallAccumulators).getD "") :: argsOfTcs i tcs) = true →
      concatStrs (jsonDeltasAt i (processToolCalls st tcs).2)
          = subFrom (lastStr (((lookupAcc i st.toolCallAccumulators).getD "")
                :: argsOfTcs i tcs))
              ((lookupAcc i st.toolCallAccumulators).getD "").length
        ∧ (lookupAcc i (processToolCalls st tcs).1.toolCallAccumulators).getD ""
            = lastStr (((lookupAcc i st.toolCallAccumulators).getD "") :: argsOfTcs i tcs) := by
  intro tcs
  induction tcs with
  | nil =>
    intro st _
    have h0 : argsOfTcs i [] = ([] : List String) := rfl
    rw [h0]
    refine ⟨?_, rfl⟩
    have h1 : lastStr [(lookupAcc i st.toolCallAccumulators).getD ""]
        = (lookupAcc i st.toolCallAccumulators).getD "" := rfl
    rw [h1, subFrom_self]
    rfl
  | cons tc rest ih =>
    intro st hchain
    rw [processToolCalls_cons]
    obtain ⟨hstep1, hstep2, hstep3⟩ := processToolCall_step st tc
    by_cases hidx : tc.index = i
    · rw [hidx] at hstep1 hstep2
      rw [argsOfTcs_cons_eq _ _ _ hidx] at hchain ⊢
      obtain ⟨hpre, hchain2⟩ := chain_cons_elim hchain
      by_cases hlt : ((lookupAcc i st.toolCallAccumulators).getD "").length
          < (tc.arguments.getD "").length
      · rw [if_pos hlt] at hstep1 hstep2
        have ihres := ih (processToolCall st tc).1 (by rw [hstep1]; exact hchain2)
        rw [hstep1] at ihres
        obtain ⟨ih1, ih2⟩ := ihres
        constructor
        · rw [jsonDeltasAt_append, concatStrs_append, hstep2, ih1, lastStr_cons_cons,
            concatStrs_single]
          exact subFrom_chain hpre (chain_head_prefix_last hchain2)
        · rw [ih2, lastStr_cons_cons]
      · rw [if_neg hlt] at hstep1 hstep2
        have hAn : (lookupAcc i st.toolCallAccumulators).getD "" = tc.arguments.getD "" := by
          apply str_eq_of_prefix_ge hpre
          rw [← strLen_eq, ← strLen_eq]
          omega
        have ihres := ih (processToolCall st tc).1
          (by rw [hstep1, hAn]; exact hchain2)
        rw [hstep1] at ihres
        obtain ⟨ih1, ih2⟩ := ihres
        constructor
        · rw [jsonDeltasAt_append, concatStrs_append, hstep2, ih1, lastStr_cons_cons, hAn]
          apply dataEq
          simp [append_data, concatStrs]
        · rw [ih2, lastStr_cons_cons, hAn]
    · have hidx' : ¬tc.index = i := hidx
      obtain ⟨hlk2, hjd⟩ := hstep3 i hidx'
      rw [argsOfTcs_cons_ne _ _ _ hidx] at hchain ⊢
      have ihres := ih (processToolCall st tc).1 (by rw [hlk2]; exact hchain)
      rw [hlk2] at ihres
      obtain ⟨ih1, ih2⟩ := ihres
      constructor
      · rw [jsonDeltasAt_append, concatStrs_append, hjd, ih1]
        apply dataEq
        simp [append_data, concatStrs]
      · exact ih2

theorem startPrelude_keeps (st : SState) :
    (startPrelude st).1.toolCallAccumulators = st.toolCallAccumulators
    ∧ (startPrelude st).1.connectionClosed = st.connectionClosed
    ∧ (startPrelude st).1.encounteredToolCall = st.encounteredToolCall
    ∧ (startPrelude st).1.textBlockStarted = st.textBlockStarted
    ∧ (startPrelude st).1.terminated = st.terminated
    ∧ (startPrelude st).1.usage = st.usage
    ∧ (startPrelude st).1.accumulatedContent = st.accumulatedContent
    ∧ (startPrelude st).1.accumulatedReasoning = st.accumulatedReasoning
    ∧ (startPrelude st).1.incompleteDataLine = st.incompleteDataLine := by
  unfold startPrelude sendSuccessMessage
  split_ifs <;> simp

theorem startPrelude_deltas (st : SState) (i : Nat) :
    jsonDeltasAt i (startPrelude st).2 = [] := by
  unfold startPrelude sendSuccessMessage
  split_ifs <;> simp [jsonDeltasAt]

theorem captureUsage_keeps (st : SState) (f : Frame) :
    (captureUsage st f).toolCallAccumulators = st.toolCallAccumulators
    ∧ (captureUsage st f).connectionClosed = st.connectionClosed
    ∧ (captureUsage st f).encounteredToolCall = st.encounteredToolCall
    ∧ (captureUsage st f).textBlockStarted = st.textBlockStarted
    ∧ (captureUsage st f).terminated = st.terminated
    ∧ (captureUsage st f).isStreamingStarted = st.isStreamingStarted
    ∧ (captureUsage st f).accumulatedContent = st.accumulatedContent
    ∧ (captureUsage st f).accumulatedReasoning = st.accumulatedReasoning
    ∧ (captureUsage st f).incompleteDataLine = st.incompleteDataLine := by
  unfold captureUsage
  cases f.usage <;> simp

theorem openTextBlock_keeps (st : SState) :
    (openTextBlock st).1.toolCallAccumulators = st.toolCallAccumulators
    ∧ (openTextBlock st).1.connectionClosed = st.connectionClosed
    ∧ (openTextBlock st).1.encounteredToolCall = st.encounteredToolCall
    ∧ (openTextBlock st).1.terminated = st.terminated
    ∧ (openTextBlock st).1.usage = st.usage
    ∧ (openTextBlock st).1.incompleteDataLine = st.incompleteDataLine := by
  unfold openTextBlock
  split_ifs <;> simp

theorem openTextBlock_deltas (st : SState) (i : Nat) :
    jsonDeltasAt i (openTextBlock st).2 = [] := by
  unfold openTextBlock
  split_ifs <;> simp [jsonDeltasAt]

theorem processToolCall_keeps (st : SState) (tc : ToolCall) :
    (processToolCall st tc).1.connectionClosed = st.connectionClosed
    ∧ (processToolCall st tc).1.isStreamingStarted = st.isStreamingStarted
    ∧ (processToolCall st tc).1.isSucceeded = st.isSucceeded
    ∧ (processToolCall st tc).1.hasStartedStreaming = st.hasStartedStreaming
    ∧ (processToolCall st tc).1.textBlockStarted = st.textBlockStarted
    ∧ (processToolCall st tc).1.terminated = st.terminated
    ∧ (processToolCall st tc).1.usage = st.usage
    ∧ (processToolCall st tc).1.accumulatedContent = st.accumulatedContent
    ∧ (processToolCall st tc).1.accumulatedReasoning = st.accumulatedReasoning
    ∧ (processToolCall st tc).1.incompleteDataLine = st.incompleteDataLine
    ∧ (processToolCall st tc).1.encounteredToolCall = true := by
  unfold processToolCall
  cases hlk : lookupAcc tc.index st.toolCallAccumulators <;>
    simp [hlk] <;> split_ifs <;> simp

theorem processToolCalls_keeps (tcs : List ToolCall) : ∀ (st : SState),
    (processToolCalls st tcs).1.connectionClosed = st.connectionClosed
    ∧ (processToolCalls st tcs).1.isStreamingStarted = st.isStreamingStarted
    ∧ (processToolCalls st tcs).1.textBlockStarted = st.textBlockStarted
    ∧ (processToolCalls st tcs).1.terminated = st.terminated
    ∧ (processToolCalls st tcs).1.usage = st.usage
    ∧ (processToolCalls st tcs).1.accumulatedContent = st.accumulatedContent
    ∧ (processToolCalls st tcs).1.accumulatedReasoning = st.accumulatedReasoning
    ∧ (processToolCalls st tcs).1.incompleteDataLine = st.incompleteDataLine
    ∧ (processToolCalls st tcs).1.encounteredToolCall
        = (st.encounteredToolCall || !tcs.isEmpty) := by
  induction tcs with
  | nil => intro st; simp [processToolCalls]
  | cons tc rest ih =>
    intro st
    rw [processToolCalls_cons]
    obtain ⟨k1, k2, k3, k4, k5, k6, k7, k8, k9, k10, k11⟩ := processToolCall_keeps st tc
    obtain ⟨j1, j2, j3, j4, j5, j6, j7, j8, j9⟩ := ih (processToolCall st tc).1
    refine ⟨?_, ?_, ?_, ?_, ?_, ?_, ?_, ?_, ?_⟩ <;>
      simp [j1, j2, j3, j4, j5, j6, j7, j8, j9, k1, k2, k3, k4, k5, k6, k7, k8, k9, k10, k11]

theorem processToolCall_acc_congr (st1 st2 : SState) (tc : ToolCall)
    (h : st1.toolCallAccumulators = st2.toolCallAccumulators) :
    (processToolCall st1 tc).2 = (processToolCall st2 tc).2
    ∧ (processToolCall st1 tc).1.toolCallAccumulators
        = (processToolCall st2 tc).1.toolCallAccumulators := by
  unfold processToolCall
  cases hlk : lookupAcc tc.index st2.toolCallAccumulators <;>
    simp [h, hlk] <;> split_ifs <;> simp

theorem processToolCalls_acc_congr (tcs : List ToolCall) : ∀ (st1 st2 : SState),
    st1.toolCallAccumulators = st2.toolCallAccumulators →
    (processToolCalls st1 tcs).2 = (processToolCalls st2 tcs).2
    ∧ (processToolCalls st1 tcs).1.toolCallAccumulators
        = (processToolCalls st2 tcs).1.toolCallAccumulators := by
  induction tcs with
  | nil => intro st1 st2 h; exact ⟨rfl, h⟩
  | cons tc rest ih =>
    intro st1 st2 h
    rw [processToolCalls_cons, processToolCalls_cons]
    obtain ⟨e1, a1⟩ := processToolCall_acc_congr st1 st2 tc h
    obtain ⟨e2, a2⟩ := ih (processToolCall st1 tc).1 (processToolCall st2 tc).1 a1
    exact ⟨by rw [e1, e2], by simpa using a2⟩

theorem frameToolCalls_of_error {f : Frame} {m : String} (h : f.error = some m) :
    frameToolCalls f = [] := by
  simp [frameToolCalls, h]

theorem frameToolCalls_ok {f : Frame} (h : f.error = none) :
    frameToolCalls f =
      (match f.choices.head?.bind (·.delta) with
       | some d => d.tool_calls.getD []
       | none => []) := by
  simp [frameToolCalls, h]

theorem processParsedFrame_deltas (st : SState) (f : Frame) (dStr : String) (i : Nat)
    (hcl : st.connectionClosed = false) :
    jsonDeltasAt i (processParsedFrame st f dStr).2
        = jsonDeltasAt i (processToolCalls st (frameToolCalls f)).2
    ∧ (processParsedFrame st f dStr).1.toolCallAccumulators
        = (processToolCalls st (frameToolCalls f)).1.toolCallAccumulators
    ∧ (processParsedFrame st f dStr).1.connectionClosed = false := by
  cases herr : f.error with
  | some m =>
    rw [frameToolCalls_of_error herr]
    have h1 : processParsedFrame st f dStr = (catchClassify st m dStr, []) := by
      simp [processParsedFrame, herr]
    rw [h1]
    unfold catchClassify
    split_ifs <;> simp [processToolCalls, jsonDeltasAt, hcl]
  | none =>
    obtain ⟨p1, p2, p3, p4, p5, p6, p7, p8, p9⟩ := startPrelude_keeps st
    obtain ⟨c1, c2, c3, c4, c5, c6, c7, c8, c9⟩ :=
      captureUsage_keeps (startPrelude st).1 f
    have hacc : (captureUsage (startPrelude st).1 f).toolCallAccumulators
        = st.toolCallAccumulators := by rw [c1, p1]
    have hclB : (captureUsage (startPrelude st).1 f).connectionClosed = false := by
      rw [c2, p2, hcl]
    have hPF : processParsedFrame st f dStr = processFrameOk st f := by
      simp [processParsedFrame, herr]
    rw [hPF, frameToolCalls_ok herr]
    show jsonDeltasAt i (processFrameOk st f).2 = _ ∧ _ ∧ _
    unfold processFrameOk
    cases hd : f.choices.head?.bind (·.delta) with
    | none =>
      simp only [hd]
      refine ⟨?_, ?_, ?_⟩
      · rw [startPrelude_deltas]
        rfl
      · rw [hacc]
        rfl
      · exact hclB
    | some d =>
      cases htc : d.tool_calls with
      | some tcs =>
        simp only [hd, htc, Option.getD]
        rw [if_pos (by rw [hclB]; rfl)]
        obtain ⟨ec, ac⟩ :=
          processToolCalls_acc_congr tcs (captureUsage (startPrelude st).1 f) st hacc
        refine ⟨?_, by simpa using ac, ?_⟩
        · show jsonDeltasAt i ((startPrelude st).2
            ++ (processToolCalls (captureUsage (startPrelude st).1 f) tcs).2) = _
          rw [jsonDeltasAt_append, startPrelude_deltas, ec]
          rfl
        · have := (processToolCalls_keeps tcs (captureUsage (startPrelude st).1 f)).1
          simpa [hclB] using this
      | none =>
        simp only [hd, htc]
        by_cases hct : (truthyStr d.content
            && !(captureUsage (startPrelude st).1 f).connectionClosed) = true
        · rw [if_pos hct]
          obtain ⟨o1, o2, o3, o4, o5, o6⟩ :=
            openTextBlock_keeps (captureUsage (startPrelude st).1 f)
          refine ⟨?_, ?_, ?_⟩
          · dsimp only
            rw [jsonDeltasAt_append, jsonDeltasAt_append, startPrelude_deltas,
              openTextBlock_deltas]
            rfl
          · dsimp only
            rw [o1, hacc]
            rfl
          · dsimp only
            rw [o2, hclB]
        · rw [if_neg hct]
          by_cases hrs : (truthyStr d.reasoning
              && !(captureUsage (startPrelude st).1 f).connectionClosed) = true
          · rw [if_pos hrs]
            obtain ⟨o1, o2, o3, o4, o5, o6⟩ :=
              openTextBlock_keeps (captureUsage (startPrelude st).1 f)
            refine ⟨?_, ?_, ?_⟩
            · dsimp only
              rw [jsonDeltasAt_append, jsonDeltasAt_append, startPrelude_deltas,
                openTextBlock_deltas]
              rfl
            · dsimp only
              rw [o1, hacc]
              rfl
            · dsimp only
              rw [o2, hclB]
          · rw [if_neg hrs]
            refine ⟨?_, ?_, ?_⟩
            · rw [startPrelude_deltas]
              rfl
            · rw [hacc]
              rfl
            · exact hclB

theorem processFrames_cons (st : SState) (f : Frame) (rest : List Frame) :
    processFrames st (f :: rest)
      = ((processFrames (processParsedFrame st f "").1 rest).1,
         (processParsedFrame st f "").2
           ++ (processFrames (processParsedFrame st f "").1 rest).2) := rfl

theorem argsOfTcs_append (i : Nat) (l1 l2 : List ToolCall) :
    argsOfTcs i (l1 ++ l2) = argsOfTcs i l1 ++ argsOfTcs i l2 := by
  simp [argsOfTcs]

theorem argsAt_cons (i : Nat) (f : Frame) (rest : List Frame) :
    argsAt i (f :: rest) = argsOfTcs i (frameToolCalls f) ++ argsAt i rest := by
  show argsOfTcs i (frameToolCalls f ++ _) = _
  rw [argsOfTcs_append]
  rfl

theorem chain_cons_empty {l : List String} (h : prefixChain l = true) :
    prefixChain ("" :: l) = true := by
  cases l with
  | nil => rfl
  | cons a t =>
    show (("" : String).data.isPrefixOf a.data && prefixChain (a :: t)) = true
    simp [h]

theorem lastStr_cons_empty (l : List String) : lastStr ("" :: l) = lastStr l := by
  cases l <;> rfl

theorem subFrom_zero (x : String) : subFrom x (("" : String).length) = x := by
  apply dataEq
  rw [subFrom_data]
  rfl

theorem processFrames_suffix (i : Nat) :
    ∀ (fs : List Frame) (st : SState), st.connectionClosed = false →
      prefixChain (((lookupAcc i st.toolCallAccumulators).getD "") :: argsAt i fs) = true →
      concatStrs (jsonDeltasAt i (processFrames st fs).2)
          = subFrom (lastStr (((lookupAcc i st.toolCallAccumulators).getD "") :: argsAt i fs))
              ((lookupAcc i st.toolCallAccumulators).getD "").length
        ∧ (lookupAcc i (processFrames st fs).1.toolCallAccumulators).getD ""
            = lastStr (((lookupAcc i st.toolCallAccumulators).getD "") :: argsAt i fs)
        ∧ (processFrames st fs).1.connectionClosed = false := by
  intro fs
  induction fs with
  | nil =>
    intro st hcl _
    have h0 : argsAt i [] = ([] : List String) := rfl
    rw [h0]
    refine ⟨?_, rfl, hcl⟩
    show concatStrs [] = subFrom (lastStr [(lookupAcc i st.toolCallAccumulators).getD ""]) _
    have h1 : lastStr [(lookupAcc i st.toolCallAccumulators).getD ""]
        = (lookupAcc i st.toolCallAccumulators).getD "" := rfl
    rw [h1, subFrom_self]
    rfl
  | cons f rest ih =>
    intro st hcl hchain
    rw [processFrames_cons]
    rw [argsAt_cons] at hchain ⊢
    obtain ⟨hev, haccs, hclf⟩ := processParsedFrame_deltas st f "" i hcl
    obtain ⟨hch1, hch2⟩ := chain_append_split _ _ _ hchain
    obtain ⟨seg1, seg2⟩ := processToolCalls_suffix i (frameToolCalls f) st hch1
    have hlkf : (lookupAcc i (processParsedFrame st f "").1.toolCallAccumulators).getD ""
        = lastStr (((lookupAcc i st.toolCallAccumulators).getD "")
            :: argsOfTcs i (frameToolCalls f)) := by
      rw [haccs]
      exact seg2
    have ihres := ih (processParsedFrame st f "").1 hclf (by rw [hlkf]; exact hch2)
    rw [hlkf] at ihres
    obtain ⟨ih1, ih2, ih3⟩ := ihres
    refine ⟨?_, ?_, ih3⟩
    · show concatStrs (jsonDeltasAt i ((processParsedFrame st f "").2 ++ _)) = _
      rw [jsonDeltasAt_append, concatStrs_append, hev, seg1, ih1]
      rw [lastStr_append]
      exact subFrom_chain (chain_head_prefix_last hch1) (chain_head_prefix_last hch2)
    · rw [ih2, lastStr_append]

theorem keysAbove_setAcc (l : List (Nat × String)) : ∀ (b i : Nat) (v : String),
    b < i → keysAbove b l = true → keysAbove b (setAcc i v l) = true := by
  induction l with
  | nil =>
    intro b i v hbi _
    simp [setAcc, keysAbove, hbi]
  | cons p t ih =>
    intro b i v hbi h
    obtain ⟨k, w⟩ := p
    rw [keysAbove, Bool.and_eq_true, decide_eq_true_eq] at h
    obtain ⟨hbk, hkt⟩ := h
    by_cases h1 : i < k
    · simp [setAcc, h1, keysAbove, hbi, hkt]
    · by_cases h2 : i = k
      · subst h2
        simp [setAcc, h1, keysAbove, hbi, hkt]
      · have hki : k < i := by omega
        simp [setAcc, h1, h2, keysAbove, hbk, ih k i v hki hkt]

theorem ascKeys_setAcc (i : Nat) (v : String) (l : List (Nat × String))
    (h : ascKeys l = true) : ascKeys (setAcc i v l) = true := by
  cases l with
  | nil => simp [setAcc, ascKeys, keysAbove]
  | cons p t =>
    obtain ⟨k, w⟩ := p
    rw [ascKeys] at h
    by_cases h1 : i < k
    · simp [setAcc, h1, ascKeys, keysAbove, h]
    · by_cases h2 : i = k
      · subst h2
        simp [setAcc, h1, ascKeys, h]
      · have hki : k < i := by omega
        simp [setAcc, h1, h2, ascKeys, keysAbove_setAcc t k i v hki h]

theorem keysAbove_bound (l : List (Nat × String)) : ∀ (b : Nat),
    keysAbove b l = true → (∀ p ∈ l, b < p.1) ∧ ascKeys l = true := by
  induction l with
  | nil => intro b _; exact ⟨by simp, rfl⟩
  | cons p t ih =>
    intro b h
    obtain ⟨k, w⟩ := p
    rw [keysAbove, Bool.and_eq_true, decide_eq_true_eq] at h
    obtain ⟨hbk, hkt⟩ := h
    obtain ⟨hall, _⟩ := ih k hkt
    constructor
    · intro q hq
      rcases List.mem_cons.mp hq with hq | hq
      · subst hq; exact hbk
      · exact Nat.lt_trans hbk (hall q hq)
    · rw [ascKeys]; exact hkt

theorem ascKeys_nodup (l : List (Nat × String)) (h : ascKeys l = true) :
    (l.map Prod.fst).Nodup := by
  induction l with
  | nil => simp
  | cons p t ih =>
    obtain ⟨k, w⟩ := p
    rw [ascKeys] at h
    obtain ⟨hall, hasc⟩ := keysAbove_bound t k h
    rw [List.map_cons, List.nodup_cons]
    constructor
    · intro hmem
      obtain ⟨q, hq, hqk⟩ := List.mem_map.mp hmem
      have := hall q hq
      omega
    · exact ih hasc

theorem keys_setAcc_mem (l : List (Nat × String)) : ∀ (i j : Nat) (v : String),
    (j ∈ (setAcc i v l).map Prod.fst) ↔ (j ∈ l.map Prod.fst ∨ j = i) := by
  induction l with
  | nil => intro i j v; simp [setAcc]
  | cons p t ih =>
    intro i j v
    obtain ⟨k, w⟩ := p
    by_cases h1 : i < k
    · simp [setAcc, h1]; tauto
    · by_cases h2 : i = k
      · subst h2
        simp [setAcc, h1]
        tauto
      · simp [setAcc, h1, h2, ih]
        tauto

theorem lookup_some_mem (l : List (Nat × String)) : ∀ (i : Nat) (a : String),
    lookupAcc i l = some a → i ∈ l.map Prod.fst := by
  induction l with
  | nil => intro i a h; simp [lookupAcc] at h
  | cons p t ih =>
    intro i a h
    obtain ⟨k, w⟩ := p
    rw [lookupAcc] at h
    by_cases hk : k = i
    · simp [hk]
    · rw [if_neg hk] at h
      simp [ih i a h]

theorem processToolCall_acc_inv (st : SState) (tc : ToolCall) :
    (ascKeys st.toolCallAccumulators = true →
      ascKeys (processToolCall st tc).1.toolCallAccumulators = true)
    ∧ (∀ j, (j ∈ (processToolCall st tc).1.toolCallAccumulators.map Prod.fst)
        ↔ (j ∈ st.toolCallAccumulators.map Prod.fst ∨ j = tc.index)) := by
  cases hlk : lookupAcc tc.index st.toolCallAccumulators with
  | none =>
    by_cases hlt : ((0 : Nat) < (tc.arguments.getD "").length)
    · have hres : (processToolCall st tc).1.toolCallAccumulators
          = setAcc tc.index (tc.arguments.getD "")
              (setAcc tc.index "" st.toolCallAccumulators) := by
        simp [processToolCall, hlk, lookupAcc_setAcc_self, hlt]
      constructor
      · intro h
        rw [hres]
        exact ascKeys_setAcc _ _ _ (ascKeys_setAcc _ _ _ h)
      · intro j
        rw [hres, keys_setAcc_mem, keys_setAcc_mem]
        tauto
    · have hres : (processToolCall st tc).1.toolCallAccumulators
          = setAcc tc.index "" st.toolCallAccumulators := by
        simp [processToolCall, hlk, lookupAcc_setAcc_self, hlt]
      constructor
      · intro h
        rw [hres]
        exact ascKeys_setAcc _ _ _ h
      · intro j
        rw [hres, keys_setAcc_mem]
  | some a =>
    have hmem := lookup_some_mem st.toolCallAccumulators tc.index a hlk
    by_cases hlt : (a.length < (tc.arguments.getD "").length)
    · have hres : (processToolCall st tc).1.toolCallAccumulators
          = setAcc tc.index (tc.arguments.getD "") st.toolCallAccumulators := by
        simp [processToolCall, hlk, hlt]
      constructor
      · intro h
        rw [hres]
        exact ascKeys_setAcc _ _ _ h
      · intro j
        rw [hres, keys_setAcc_mem]
    · have hres : (processToolCall st tc).1.toolCallAccumulators
          = st.toolCallAccumulators := by
        simp [processToolCall, hlk, hlt]
      constructor
      · intro h
        rw [hres]
        exact h
      · intro j
        rw [hres]
        constructor
        · exact Or.inl
        · rintro (h | h)
          · exact h
          · subst h
            exact hmem

theorem processToolCalls_acc_inv (tcs : List ToolCall) : ∀ (st : SState),
    (ascKeys st.toolCallAccumulators = true →
      ascKeys (processToolCalls st tcs).1.toolCallAccumulators = true)
    ∧ (∀ j, (j ∈ (processToolCalls st tcs).1.toolCallAccumulators.map Prod.fst)
        ↔ (j ∈ st.toolCallAccumulators.map Prod.fst ∨ ∃ tc ∈ tcs, tc.index = j)) := by
  induction tcs with
  | nil => intro st; simp [processToolCalls]
  | cons tc rest ih =>
    intro st
    rw [processToolCalls_cons]
    obtain ⟨ha1, ha2⟩ := processToolCall_acc_inv st tc
    obtain ⟨hb1, hb2⟩ := ih (processToolCall st tc).1
    constructor
    · intro h
      exact hb1 (ha1 h)
    · intro j
      show (j ∈ (processToolCalls (processToolCall st tc).1
        rest).1.toolCallAccumulators.map Prod.fst) ↔ _
      rw [hb2 j, ha2 j]
      simp only [List.mem_cons]
      constructor
      · rintro ((h | h) | ⟨tc2, h2, h3⟩)
        · exact Or.inl h
        · exact Or.inr ⟨tc, Or.inl rfl, h.symm⟩
        · exact Or.inr ⟨tc2, Or.inr h2, h3⟩
      · rintro (h | ⟨tc2, (h2 | h2), h3⟩)
        · exact Or.inl (Or.inl h)
        · subst h2
          exact Or.inl (Or.inr h3.symm)
        · exact Or.inr ⟨tc2, h2, h3⟩

theorem captureUsage_usage (st : SState) (f : Frame) :
    (captureUsage st f).usage
      = (match f.usage with | some u => some u | none => st.usage) := by
  unfold captureUsage
  cases f.usage <;> simp

theorem processParsedFrame_inv (st : SState) (f : Frame)
    (hcl : st.connectionClosed = false) :
    (processParsedFrame st f "").1.terminated = st.terminated
    ∧ (processParsedFrame st f "").1.encounteredToolCall
        = (st.encounteredToolCall || !(frameToolCalls f).isEmpty)
    ∧ (processParsedFrame st f "").1.usage
        = (match frameUsage f with | some u => some u | none => st.usage)
    ∧ ((processParsedFrame st f "").1.incompleteDataLine = ""
        ∨ (processParsedFrame st f "").1.incompleteDataLine = st.incompleteDataLine) := by
  cases herr : f.error with
  | some m =>
    have h1 : processParsedFrame st f "" = (catchClassify st m "", []) := by
      simp [processParsedFrame, herr]
    have h2 : frameToolCalls f = [] := frameToolCalls_of_error herr
    have h3 : frameUsage f = none := by simp [frameUsage, herr]
    rw [h1, h2, h3]
    unfold catchClassify
    split_ifs <;> simp
  | none =>
    have hPF : processParsedFrame st f "" = processFrameOk st f := by
      simp [processParsedFrame, herr]
    have h3 : frameUsage f = f.usage := by simp [frameUsage, herr]
    rw [hPF, frameToolCalls_ok herr, h3]
    obtain ⟨p1, p2, p3, p4, p5, p6, p7, p8, p9⟩ := startPrelude_keeps st
    obtain ⟨c1, c2, c3, c4, c5, c6, c7, c8, c9⟩ :=
      captureUsage_keeps (startPrelude st).1 f
    have husage : (captureUsage (startPrelude st).1 f).usage
        = (match f.usage with | some u => some u | none => st.usage) := by
      rw [captureUsage_usage, p6]
    have hclB : (captureUsage (startPrelude st).1 f).connectionClosed = false := by
      rw [c2, p2, hcl]
    unfold processFrameOk
    cases hd : f.choices.head?.bind (·.delta) with
    | none =>
      dsimp only
      refine ⟨?_, ?_, ?_, Or.inr ?_⟩
      · rw [c5, p5]
      · rw [c3, p3]
        simp
      · exact husage
      · rw [c9, p9]
    | some d =>
      cases htc : d.tool_calls with
      | some tcs =>
        simp only [htc, Option.getD]
        rw [if_pos (by rw [hclB]; rfl)]
        obtain ⟨j1, j2, j3, j4, j5, j6, j7, j8, j9⟩ :=
          processToolCalls_keeps tcs (captureUsage (startPrelude st).1 f)
        refine ⟨?_, ?_, ?_, Or.inr ?_⟩
        · dsimp only
          rw [j4, c5, p5]
        · dsimp only
          rw [j9, c3, p3]
        · dsimp only
          rw [j5, husage]
        · dsimp only
          rw [j8, c9, p9]
      | none =>
        simp only [htc]
        obtain ⟨o1, o2, o3, o4, o5, o6⟩ :=
          openTextBlock_keeps (captureUsage (startPrelude st).1 f)
        have hob : (openTextBlock (captureUsage (startPrelude st).1 f)).1.terminated
            = st.terminated := by rw [o4, c5, p5]
        have hoe : (openTextBlock (captureUsage (startPrelude st).1 f)).1.encounteredToolCall
            = st.encounteredToolCall := by rw [o3, c3, p3]
        have hou : (openTextBlock (captureUsage (startPrelude st).1 f)).1.usage
            = (match f.usage with | some u => some u | none => st.usage) := by
          rw [o5, husage]
        have hoi : (openTextBlock (captureUsage (startPrelude st).1 f)).1.incompleteDataLine
            = st.incompleteDataLine := by rw [o6, c9, p9]
        split_ifs
        · exact ⟨hob, by rw [hoe]; simp, hou, Or.inr hoi⟩
        · exact ⟨hob, by rw [hoe]; simp, hou, Or.inr hoi⟩
        · refine ⟨?_, ?_, ?_, Or.inr ?_⟩
          · rw [c5, p5]
          · rw [c3, p3]
            simp
          · exact husage
          · rw [c9, p9]

theorem processFrames_inv (fs : List Frame) : ∀ (st : SState),
    st.connectionClosed = false → st.incompleteDataLine = "" →
    (processFrames st fs).1.connectionClosed = false
    ∧ (processFrames st fs).1.terminated = st.terminated
    ∧ (processFrames st fs).1.incompleteDataLine = ""
    ∧ (ascKeys st.toolCallAccumulators = true →
        ascKeys (processFrames st fs).1.toolCallAccumulators = true)
    ∧ (processFrames st fs).1.encounteredToolCall
        = (st.encounteredToolCall || sawToolCall fs)
    ∧ (processFrames st fs).1.usage
        = (match capturedUsage fs with | some u => some u | none => st.usage)
    ∧ (∀ j, j ∈ usedIndices (processFrames st fs).1
        ↔ j ∈ usedIndices st ∨ ∃ f ∈ fs, ∃ tc ∈ frameToolCalls f, tc.index = j) := by
  induction fs with
  | nil =>
    intro st hcl hinc
    refine ⟨hcl, rfl, hinc, fun h => h, by simp [processFrames, sawToolCall],
      by simp [processFrames, capturedUsage], ?_⟩
    intro j
    simp [processFrames]
  | cons f rest ih =>
    intro st hcl hinc
    rw [processFrames_cons]
    obtain ⟨d1, d2, d3⟩ := processParsedFrame_deltas st f "" 0 hcl
    obtain ⟨i1, i2, i3, i4⟩ := processParsedFrame_inv st f hcl
    have hinc1 : (processParsedFrame st f "").1.incompleteDataLine = "" := by
      rcases i4 with h | h
      · exact h
      · rw [h, hinc]
    obtain ⟨r1, r2, r3, r4, r5, r6, r7⟩ := ih (processParsedFrame st f "").1 d3 hinc1
    obtain ⟨a1, a2⟩ := processToolCalls_acc_inv (frameToolCalls f) st
    refine ⟨r1, ?_, r3, ?_, ?_, ?_, ?_⟩
    · rw [r2, i1]
    · intro h
      apply r4
      rw [d2]
      exact a1 h
    · rw [r5, i2]
      simp [sawToolCall, List.any_cons]
      cases st.encounteredToolCall <;> cases (frameToolCalls f).isEmpty <;>
        cases rest.any (fun g => !(frameToolCalls g).isEmpty) <;> simp [sawToolCall]
    · rw [r6, i3]
      show _ = (match capturedUsage (f :: rest) with | some u => some u | none => st.usage)
      cases hcr : capturedUsage rest with
      | some u => simp [capturedUsage, hcr]
      | none =>
        cases hfu : frameUsage f with
        | some u => simp [capturedUsage, hcr, hfu]
        | none => simp [capturedUsage, hcr, hfu]
    · intro j
      rw [r7 j]
      have hu1 : j ∈ usedIndices (processParsedFrame st f "").1
          ↔ j ∈ usedIndices st ∨ ∃ tc ∈ frameToolCalls f, tc.index = j := by
        show j ∈ (processParsedFrame st f "").1.toolCallAccumulators.map Prod.fst ↔ _
        rw [d2]
        exact a2 j
      rw [hu1]
      simp only [List.mem_cons]
      constructor
      · rintro ((h | ⟨tc, h1, h2⟩) | ⟨g, h1, h2⟩)
        · exact Or.inl h
        · exact Or.inr ⟨f, Or.inl rfl, tc, h1, h2⟩
        · exact Or.inr ⟨g, Or.inr h1, h2⟩
      · rintro (h | ⟨g, (h1 | h1), h2⟩)
        · exact Or.inl (Or.inl h)
        · subst h1
          exact Or.inl (Or.inr h2)
        · exact Or.inr ⟨g, h1, h2⟩

theorem sstate_eta_incomplete (st : SState) (h : st.incompleteDataLine = "") :
    { st with incompleteDataLine := "" } = st := by
  cases st
  simp_all

theorem processLine_done (parse : String → ParseOutcome) (st : SState)
    (hterm : st.terminated = false) (hcl : st.connectionClosed = false)
    (hinc : st.incompleteDataLine = "") :
    processLine parse st "data: [DONE]" = processDone st := by
  have h1 : processLine parse st "data: [DONE]"
      = processDataStr parse { st with incompleteDataLine := "" }
          (st.incompleteDataLine ++ stripDataTag (jsTrim "data: [DONE]")) := by
    unfold processLine
    rw [hterm, hcl]
    rfl
  rw [h1, hinc, sstate_eta_incomplete st hinc]
  have h2 : ("" : String) ++ stripDataTag (jsTrim "data: [DONE]") = "[DONE]" := rfl
  rw [h2]
  unfold processDataStr
  rw [if_pos rfl]

theorem processChunk_terminated (parse : String → ParseOutcome) (st : SState)
    (buf chunk : String) (h : st.terminated = true) :
    processChunk parse (st, buf) chunk = ((st, buf), []) := by
  unfold processChunk
  dsimp only
  rw [h]
  rfl

theorem processDone_spec (st : SState) (hcl : st.connectionClosed = false) :
    (processDone st).2
      = (if st.encounteredToolCall then (usedIndices st).map Ev.contentBlockStop
         else if st.textBlockStarted then [Ev.contentBlockStop 0] else [])
        ++ [Ev.messageDelta (if st.encounteredToolCall then "tool_use" else "end_turn")
              (match st.usage with
               | some u => u.completion_tokens
               | none => wordCount st.accumulatedContent + wordCount st.accumulatedReasoning),
            Ev.messageStop, Ev.endResponse]
    ∧ (processDone st).1.terminated = true := by
  constructor
  · show (let stopEvs : List Ev := _; let finalEvs : List Ev := _; (_, stopEvs ++ finalEvs)).2 = _
    dsimp only
    rw [hcl]
    simp only [Bool.not_false, if_true, Bool.false_eq_true, if_false, Bool.and_true]
    congr 1
    cases st.encounteredToolCall <;> simp [usedIndices, List.map_map, Function.comp]
  · rfl

theorem count_stops (keys : List Nat) (h : keys.Nodup) (i : Nat) :
    (keys.map Ev.contentBlockStop).count (Ev.contentBlockStop i)
      = if i ∈ keys then 1 else 0 := by
  have hinj : Function.Injective Ev.contentBlockStop := by
    intro a b hab
    injection hab
  rw [List.count_map_of_injective _ _ hinj]
  by_cases hm : i ∈ keys
  · rw [if_pos hm, List.count_eq_one_of_mem h hm]
  · rw [if_neg hm, List.count_eq_zero_of_not_mem hm]

theorem option_match_id (o : Option Usage) :
    (match o with | some u => some u | none => none) = o := by
  cases o <;> rfl

theorem processToolCall_startEvs (st : SState) (tc : ToolCall) :
    (processToolCall st tc).2.filter startEvB = [] := by
  unfold processToolCall
  cases hlk : lookupAcc tc.index st.toolCallAccumulators <;>
    simp [hlk] <;> split_ifs <;>
    simp [startEvB, isHeaderEv, isMessageStartEv, isPingEv]

theorem processToolCalls_startEvs (tcs : List ToolCall) : ∀ (st : SState),
    (processToolCalls st tcs).2.filter startEvB = []
    ∧ (processToolCalls st tcs).1.isStreamingStarted = st.isStreamingStarted
    ∧ (processToolCalls st tcs).1.isSucceeded = st.isSucceeded
    ∧ (processToolCalls st tcs).1.hasStartedStreaming = st.hasStartedStreaming := by
  induction tcs with
  | nil => intro st; exact ⟨rfl, rfl, rfl, rfl⟩
  | cons tc rest ih =>
    intro st
    rw [processToolCalls_cons]
    obtain ⟨i1, i2, i3, i4⟩ := ih (processToolCall st tc).1
    obtain ⟨k1, k2, k3, k4, k5, k6, k7, k8, k9, k10, k11⟩ := processToolCall_keeps st tc
    refine ⟨?_, ?_, ?_, ?_⟩
    · show ((processToolCall st tc).2 ++ _).filter startEvB = []
      rw [List.filter_append, processToolCall_startEvs, i1]
      rfl
    · show (processToolCalls (processToolCall st tc).1 rest).1.isStreamingStarted = _
      rw [i2, k2]
    · show (processToolCalls (processToolCall st tc).1 rest).1.isSucceeded = _
      rw [i3, k3]
    · show (processToolCalls (processToolCall st tc).1 rest).1.hasStartedStreaming = _
      rw [i4, k4]

theorem openTextBlock_flags (st : SState) :
    (openTextBlock st).2.filter startEvB = []
    ∧ (openTextBlock st).1.isStreamingStarted = st.isStreamingStarted
    ∧ (openTextBlock st).1.isSucceeded = st.isSucceeded
    ∧ (openTextBlock st).1.hasStartedStreaming = st.hasStartedStreaming := by
  unfold openTextBlock
  split_ifs <;> simp [startEvB, isHeaderEv, isMessageStartEv, isPingEv]

theorem captureUsage_flags (st : SState) (f : Frame) :
    (captureUsage st f).isStreamingStarted = st.isStreamingStarted
    ∧ (captureUsage st f).isSucceeded = st.isSucceeded
    ∧ (captureUsage st f).hasStartedStreaming = st.hasStartedStreaming
    ∧ (captureUsage st f).connectionClosed = st.connectionClosed := by
  unfold captureUsage
  cases f.usage <;> simp

theorem startPrelude_spec (st : SState) (hg : goodFlags st) :
    (startPrelude st).2.filter startEvB
      = (if st.isStreamingStarted then []
         else [Ev.header, Ev.messageStart [] 0 0, Ev.ping])
    ∧ (startPrelude st).1.isStreamingStarted = true
    ∧ goodFlags (startPrelude st).1 := by
  obtain ⟨hg1, hg2, hg3⟩ := hg
  unfold startPrelude sendSuccessMessage
  cases hst : st.isStreamingStarted with
  | false =>
    rw [hg1, hg2, hg3]
    simp [goodFlags, hst, startEvB, isHeaderEv, isMessageStartEv, isPingEv]
  | true =>
    rw [hg1, hg2, hg3]
    simp [goodFlags, hg1, hg2, hg3, hst]

theorem processParsedFrame_startEvs (st : SState) (f : Frame) (dStr : String)
    (hg : goodFlags st) :
    (processParsedFrame st f dStr).2.filter startEvB
      = (if st.isStreamingStarted then []
         else if f.error.isSome then []
         else [Ev.header, Ev.messageStart [] 0 0, Ev.ping])
    ∧ (processParsedFrame st f dStr).1.isStreamingStarted
        = (st.isStreamingStarted || f.error.isNone)
    ∧ goodFlags (processParsedFrame st f dStr).1 := by
  cases herr : f.error with
  | some m =>
    have h1 : processParsedFrame st f dStr = (catchClassify st m dStr, []) := by
      simp [processParsedFrame, herr]
    rw [h1]
    unfold catchClassify
    obtain ⟨hg1, hg2, hg3⟩ := hg
    split_ifs <;> simp_all [goodFlags]
  | none =>
    have hPF : processParsedFrame st f dStr = processFrameOk st f := by
      simp [processParsedFrame, herr]
    rw [hPF]
    obtain ⟨s1, s2, s3⟩ := startPrelude_spec st hg
    obtain ⟨c6', cS, cH, cC⟩ := captureUsage_flags (startPrelude st).1 f
    have hcapG : goodFlags (captureUsage (startPrelude st).1 f) := by
      obtain ⟨g1, g2, g3⟩ := s3
      exact ⟨by rw [cS, c6', g1], by rw [cH, c6', g2], by rw [cC, g3]⟩
    have hcapS : (captureUsage (startPrelude st).1 f).isStreamingStarted = true := by
      rw [c6', s2]
    have hclB : (captureUsage (startPrelude st).1 f).connectionClosed = false := hcapG.2.2
    unfold processFrameOk
    cases hd : f.choices.head?.bind (·.delta) with
    | none =>
      refine ⟨?_, ?_, ?_⟩
      · show (startPrelude st).2.filter startEvB = _
        rw [s1]
        cases hst : st.isStreamingStarted <;> simp
      · show (captureUsage (startPrelude st).1 f).isStreamingStarted = _
        rw [hcapS]
        simp
      · show goodFlags (captureUsage (startPrelude st).1 f)
        exact hcapG
    | some d =>
      cases htc : d.tool_calls with
      | some tcs =>
        simp only [htc, Option.getD]
        rw [if_pos (by rw [hclB]; rfl)]
        obtain ⟨t1, t2, t3, t4⟩ :=
          processToolCalls_startEvs tcs (captureUsage (startPrelude st).1 f)
        refine ⟨?_, ?_, ?_⟩
        · show ((startPrelude st).2
            ++ (processToolCalls (captureUsage (startPrelude st).1 f) tcs).2).filter startEvB
              = _
          rw [List.filter_append, t1, s1]
          cases hst : st.isStreamingStarted <;> simp
        · show (processToolCalls (captureUsage (startPrelude st).1 f) tcs).1.isStreamingStarted
            = _
          rw [t2, hcapS]
          simp
        · show goodFlags (processToolCalls (captureUsage (startPrelude st).1 f) tcs).1
          obtain ⟨g1, g2, g3⟩ := hcapG
          have hcl2 := (processToolCalls_keeps tcs (captureUsage (startPrelude st).1 f)).1
          exact ⟨by rw [t3, t2, g1], by rw [t4, t2, g2], by rw [hcl2, g3]⟩
      | none =>
        simp only [htc]
        obtain ⟨o0, o1', o2', o3'⟩ :=
          openTextBlock_flags (captureUsage (startPrelude st).1 f)
        have hgO : goodFlags (openTextBlock (captureUsage (startPrelude st).1 f)).1 := by
          obtain ⟨g1, g2, g3⟩ := hcapG
          have hcl2 := (openTextBlock_keeps (captureUsage (startPrelude st).1 f)).2.1
          exact ⟨by rw [o2', o1', g1], by rw [o3', o1', g2], by rw [hcl2, g3]⟩
        by_cases hct : (truthyStr d.content
            && !(captureUsage (startPrelude st).1 f).connectionClosed) = true
        · rw [if_pos hct]
          refine ⟨?_, ?_, ?_⟩
          · show ((startPrelude st).2
              ++ (openTextBlock (captureUsage (startPrelude st).1 f)).2
              ++ [Ev.contentBlockDelta 0 (DeltaKind.textDelta (d.content.getD ""))]).filter
                  startEvB = _
            rw [List.filter_append, List.filter_append, o0, s1]
            cases hst : st.isStreamingStarted <;>
              simp [startEvB, isHeaderEv, isMessageStartEv, isPingEv]
          · show (openTextBlock (captureUsage (startPrelude st).1 f)).1.isStreamingStarted = _
            rw [o1', hcapS]
            simp
          · show goodFlags (openTextBlock (captureUsage (startPrelude st).1 f)).1
            exact hgO
        · rw [if_neg hct]
          by_cases hrs : (truthyStr d.reasoning
              && !(captureUsage (startPrelude st).1 f).connectionClosed) = true
          · rw [if_pos hrs]
            refine ⟨?_, ?_, ?_⟩
            · show ((startPrelude st).2
                ++ (openTextBlock (captureUsage (startPrelude st).1 f)).2
                ++ [Ev.contentBlockDelta 0
                      (DeltaKind.thinkingDelta (d.reasoning.getD ""))]).filter
                    startEvB = _
              rw [List.filter_append, List.filter_append, o0, s1]
              cases hst : st.isStreamingStarted <;>
                simp [startEvB, isHeaderEv, isMessageStartEv, isPingEv]
            · show (openTextBlock (captureUsage (startPrelude st).1 f)).1.isStreamingStarted
                = _
              rw [o1', hcapS]
              simp
            · show goodFlags (openTextBlock (captureUsage (startPrelude st).1 f)).1
              exact hgO
          · rw [if_neg hrs]
            refine ⟨?_, ?_, ?_⟩
            · show (startPrelude st).2.filter startEvB = _
              rw [s1]
              cases hst : st.isStreamingStarted <;> simp
            · show (captureUsage (startPrelude st).1 f).isStreamingStarted = _
              rw [hcapS]
              simp
            · show goodFlags (captureUsage (startPrelude st).1 f)
              exact hcapG

theorem processDone_startEvs (st : SState) :
    (processDone st).2.filter startEvB = []
    ∧ (processDone st).1.isStreamingStarted = st.isStreamingStarted
    ∧ (processDone st).1.isSucceeded = st.isSucceeded
    ∧ (processDone st).1.hasStartedStreaming = st.hasStartedStreaming
    ∧ (processDone st).1.connectionClosed = st.connectionClosed := by
  unfold processDone
  dsimp only
  refine ⟨?_, rfl, rfl, rfl, rfl⟩
  rw [List.filter_append]
  have h1 : ∀ (l : List (Nat × String)),
      (l.map (fun p => Ev.contentBlockStop p.1)).filter startEvB = [] := by
    intro l
    induction l with
    | nil => rfl
    | cons p t ih => simpa [startEvB, isHeaderEv, isMessageStartEv, isPingEv] using ih
  split_ifs <;> simp [h1, startEvB, isHeaderEv, isMessageStartEv, isPingEv]

theorem processLines_cons (parse : String → ParseOutcome) (st : SState) (l : String)
    (rest : List String) :
    processLines parse st (l :: rest)
      = ((processLines parse (processLine parse st l).1 rest).1,
         (processLine parse st l).2
           ++ (processLines parse (processLine parse st l).1 rest).2) := rfl

theorem catchClassify_flags (st : SState) (m dStr : String) :
    (catchClassify st m dStr).isStreamingStarted = st.isStreamingStarted
    ∧ (catchClassify st m dStr).isSucceeded = st.isSucceeded
    ∧ (catchClassify st m dStr).hasStartedStreaming = st.hasStartedStreaming
    ∧ (catchClassify st m dStr).connectionClosed = st.connectionClosed := by
  unfold catchClassify
  split_ifs <;> simp

theorem processLine_startEvs (parse : String → ParseOutcome) (st : SState) (line : String)
    (hg : goodFlags st) :
    (processLine parse st line).2.filter startEvB
      = (if st.isStreamingStarted then []
         else if lineTriggers parse st line
           then [Ev.header, Ev.messageStart [] 0 0, Ev.ping] else [])
    ∧ (processLine parse st line).1.isStreamingStarted
        = (st.isStreamingStarted || lineTriggers parse st line)
    ∧ goodFlags (processLine parse st line).1 := by
  obtain ⟨hg1, hg2, hg3⟩ := hg
  cases ht : st.terminated with
  | true =>
    have hL : processLine parse st line = (st, []) := by
      unfold processLine
      rw [ht]
      rfl
    have hT : lineTriggers parse st line = false := by
      unfold lineTriggers
      rw [ht, hg3]
      rfl
    rw [hL, hT]
    exact ⟨by simp, by simp, hg1, hg2, hg3⟩
  | false =>
    have hguard : processLine parse st line
        = (if (jsTrim line).isEmpty || !jsStartsWith (jsTrim line) "data:" then (st, [])
           else processDataStr parse { st with incompleteDataLine := "" }
             (st.incompleteDataLine ++ stripDataTag (jsTrim line))) := by
      unfold processLine
      rw [ht, hg3]
      rfl
    have hTrig : lineTriggers parse st line
        = (if (jsTrim line).isEmpty || !jsStartsWith (jsTrim line) "data:" then false
           else if (st.incompleteDataLine ++ stripDataTag (jsTrim line)) = "[DONE]" then false
           else
             match parse (st.incompleteDataLine ++ stripDataTag (jsTrim line)) with
             | .ok f => f.error.isNone
             | .err _ => false) := by
      unfold lineTriggers
      rw [ht, hg3]
      rfl
    rw [hguard, hTrig]
    by_cases h2 : ((jsTrim line).isEmpty || !jsStartsWith (jsTrim line) "data:") = true
    · rw [if_pos h2, if_pos h2]
      exact ⟨by simp, by simp, hg1, hg2, hg3⟩
    · rw [if_neg h2, if_neg h2]
      have hsame : ({ st with incompleteDataLine := "" } : SState).isStreamingStarted
          = st.isStreamingStarted := rfl
      by_cases h3 : (st.incompleteDataLine ++ stripDataTag (jsTrim line)) = "[DONE]"
      · rw [if_pos h3]
        have hD : processDataStr parse { st with incompleteDataLine := "" }
            (st.incompleteDataLine ++ stripDataTag (jsTrim line))
            = processDone { st with incompleteDataLine := "" } := by
          unfold processDataStr
          rw [if_pos h3]
        rw [hD]
        obtain ⟨d0, d1, d2, d3, d4⟩ := processDone_startEvs { st with incompleteDataLine := "" }
        rw [hsame] at d1
        refine ⟨?_, ?_, ?_⟩
        · rw [d0]
          simp
        · rw [d1]
          simp
        · exact ⟨by rw [d2, d1]; exact hg1, by rw [d3, d1]; exact hg2, by rw [d4]; exact hg3⟩
      · rw [if_neg h3]
        have hD : processDataStr parse { st with incompleteDataLine := "" }
            (st.incompleteDataLine ++ stripDataTag (jsTrim line))
            = (match parse (st.incompleteDataLine ++ stripDataTag (jsTrim line)) with
               | .ok f => processParsedFrame { st with incompleteDataLine := "" } f
                   (st.incompleteDataLine ++ stripDataTag (jsTrim line))
               | .err m => (catchClassify { st with incompleteDataLine := "" } m
                   (st.incompleteDataLine ++ stripDataTag (jsTrim line)), [])) := by
          unfold processDataStr
          rw [if_neg h3]
        rw [hD]
        have hgU : goodFlags { st with incompleteDataLine := "" } := ⟨hg1, hg2, hg3⟩
        cases hp : parse (st.incompleteDataLine ++ stripDataTag (jsTrim line)) with
        | ok f =>
          obtain ⟨q1, q2, q3⟩ := processParsedFrame_startEvs
            { st with incompleteDataLine := "" } f
            (st.incompleteDataLine ++ stripDataTag (jsTrim line)) hgU
          rw [hsame] at q1 q2
          refine ⟨?_, ?_, q3⟩
          · rw [q1]
            cases herr2 : f.error <;> cases hst : st.isStreamingStarted <;> simp [herr2, hst]
          · exact q2
        | err m =>
          obtain ⟨c1', c2', c3', c4'⟩ := catchClassify_flags
            { st with incompleteDataLine := "" } m
            (st.incompleteDataLine ++ stripDataTag (jsTrim line))
          rw [hsame] at c1'
          refine ⟨by simp, ?_, ?_⟩
          · show (catchClassify { st with incompleteDataLine := "" } m _).isStreamingStarted = _
            rw [c1']
            simp
          · exact ⟨by rw [c2', c1']; exact hg1, by rw [c3', c1']; exact hg2,
              by rw [c4']; exact hg3⟩

theorem processLines_startEvs (parse : String → ParseOutcome) (lines : List String) :
    ∀ (st : SState), goodFlags st →
    (processLines parse st lines).2.filter startEvB
      = (if st.isStreamingStarted then []
         else if (processLines parse st lines).1.isStreamingStarted
           then [Ev.header, Ev.messageStart [] 0 0, Ev.ping] else [])
    ∧ (st.isStreamingStarted = true →
        (processLines parse st lines).1.isStreamingStarted = true)
    ∧ goodFlags (processLines parse st lines).1 := by
  induction lines with
  | nil =>
    intro st hg
    refine ⟨?_, fun h => h, hg⟩
    have h0 : (processLines parse st []).1 = st := rfl
    rw [h0]
    show ([] : List Ev).filter startEvB = _
    cases hst : st.isStreamingStarted <;> simp [hst]
  | cons l rest ih =>
    intro st hg
    rw [processLines_cons]
    obtain ⟨p1, p2, p3⟩ := processLine_startEvs parse st l hg
    obtain ⟨q1, q2, q3⟩ := ih (processLine parse st l).1 p3
    refine ⟨?_, ?_, q3⟩
    · show ((processLine parse st l).2
        ++ (processLines parse (processLine parse st l).1 rest).2).filter startEvB = _
      rw [List.filter_append, p1, q1, p2]
      cases hst : st.isStreamingStarted with
      | true => simp [q2 (by rw [p2, hst]; rfl)]
      | false =>
        cases htr : lineTriggers parse st l with
        | true => simp [q2 (by rw [p2, hst, htr]; rfl)]
        | false => simp
    · intro h
      apply q2
      rw [p2, h]
      rfl

theorem buildMessages_decomp (p : Payload) :
    buildMessages p = sysMsgs p ++ perMessages (p.messages.getD []) := by
  have hfold : ∀ (l : List InMessage) (acc : List OutMsg),
      l.foldl (fun a m => (a ++ mainPart m) ++ toolResultPart m) acc
        = acc ++ perMessages l := by
    intro l
    induction l with
    | nil => intro acc; simp [perMessages]
    | cons m t ih =>
      intro acc
      simp only [List.foldl_cons]
      rw [ih]
      simp [perMessages, perMessage, List.append_assoc]
  unfold buildMessages
  cases hm : p.messages with
  | none => simp [perMessages]
  | some msgs => simpa using hfold msgs (sysMsgs p)

theorem countP_filter_of_imp (p q : Ev → Bool) (h : ∀ e, p e = true → q e = true)
    (l : List Ev) : (l.filter q).countP p = l.countP p := by
  induction l with
  | nil => rfl
  | cons e t ih =>
    cases hp : p e with
    | true =>
      have hq := h e hp
      simp [List.filter_cons, hq, List.countP_cons, hp, ih]
    | false =>
      by_cases hq : q e = true <;> simp [List.filter_cons, hq, List.countP_cons, hp, ih]

theorem arrMapRemove_eq_remove (v : J) (h : isArrJ v = true) :
    arrMapRemove v = removeUriFormat v := by
  cases v <;> first | rfl | simp [isArrJ] at h

theorem walkVal_collapse (k : String) (v : J) :
    (if k = "properties" && typeofObject v then propsWalk v
     else if k = "items" && typeofObject v then removeUriFormat v
     else if k = "additionalProperties" && typeofObject v then removeUriFormat v
     else if (k = "anyOf" || k = "allOf" || k = "oneOf") && isArrJ v then arrMapRemove v
     else removeUriFormat v)
    = if k = "properties" && typeofObject v then propsWalk v else removeUriFormat v := by
  by_cases h1 : (k = "properties" && typeofObject v) = true
  · rw [if_pos h1, if_pos h1]
  · rw [if_neg h1, if_neg h1]
    by_cases h4 : ((k = "anyOf" || k = "allOf" || k = "oneOf") && isArrJ v) = true
    · rw [arrMapRemove_eq_remove v (by rw [Bool.and_eq_true] at h4; exact h4.2)]
      simp only [ite_self]
    · rw [if_neg h4]
      simp only [ite_self]

theorem walkFields_cons_eq (k : String) (v : J) (t : List (String × J)) :
    walkFields ((k, v) :: t)
      = (k, if k = "properties" && typeofObject v then propsWalk v else removeUriFormat v)
        :: walkFields t := by
  show ((k,
      if k = "properties" && typeofObject v then propsWalk v
      else if k = "items" && typeofObject v then removeUriFormat v
      else if k = "additionalProperties" && typeofObject v then removeUriFormat v
      else if (k = "anyOf" || k = "allOf" || k = "oneOf") && isArrJ v then arrMapRemove v
      else removeUriFormat v) :: walkFields t) = _
  rw [walkVal_collapse]

theorem sizeOf_obj_fields (fs : List (String × J)) : sizeOf fs < sizeOf (J.obj fs) := by
  simp [J.obj.sizeOf_spec]

theorem sizeOf_arr_elems (xs : List J) : sizeOf xs < sizeOf (J.arr xs) := by
  simp [J.arr.sizeOf_spec]

theorem sizeOf_field_val (k : String) (v : J) (t : List (String × J)) :
    sizeOf v < sizeOf ((k, v) :: t) := by
  simp only [List.cons.sizeOf_spec, Prod.mk.sizeOf_spec]
  omega

theorem sizeOf_field_tail (k : String) (v : J) (t : List (String × J)) :
    sizeOf t < sizeOf ((k, v) :: t) := by
  simp only [List.cons.sizeOf_spec, Prod.mk.sizeOf_spec]
  omega

theorem sizeOf_elem_head (x : J) (t : List J) : sizeOf x < sizeOf (x :: t) := by
  simp only [List.cons.sizeOf_spec]
  omega

theorem sizeOf_elem_tail (x : J) (t : List J) : sizeOf t < sizeOf (x :: t) := by
  simp only [List.cons.sizeOf_spec]
  omega

theorem getKey_removeFormatKey (fs : List (String × J)) :
    getKey "format" (removeFormatKey fs) = none := by
  induction fs with
  | nil => rfl
  | cons p t ih =>
    obtain ⟨k, v⟩ := p
    unfold removeFormatKey at ih ⊢
    rw [List.filter_cons]
    by_cases hk : k = "format"
    · have : ((k, v).1 != "format") = false := by simp [hk]
      rw [this, if_neg Bool.false_ne_true]
      exact ih
    · have : ((k, v).1 != "format") = true := by simp [hk]
      rw [this, if_pos rfl]
      unfold getKey
      rw [if_neg hk]
      exact ih

theorem isUri_removeFormatKey (fs : List (String × J)) :
    isUriStringSchema (removeFormatKey fs) = false := by
  unfold isUriStringSchema
  rw [getKey_removeFormatKey]
  cases h : getKey "type" (removeFormatKey fs) with
  | none => rfl
  | some v => cases v <;> rfl

theorem strOf_removeUriFormat (v : J) : strOf (removeUriFormat v) = strOf v := by
  cases v with
  | null => rfl
  | bool b => rfl
  | num m => rfl
  | str s => rfl
  | arr xs => rfl
  | obj fs =>
    show strOf (if isUriStringSchema fs then J.obj (removeFormatKey fs)
      else J.obj (walkFields fs)) = _
    by_cases h : isUriStringSchema fs = true
    · rw [if_pos h]
      rfl
    · rw [if_neg h]
      rfl

theorem typeof_removeUriFormat (v : J) : typeofObject (removeUriFormat v) = typeofObject v := by
  cases v with
  | null => rfl
  | bool b => rfl
  | num m => rfl
  | str s => rfl
  | arr xs => rfl
  | obj fs =>
    show typeofObject (if isUriStringSchema fs then J.obj (removeFormatKey fs)
      else J.obj (walkFields fs)) = _
    by_cases h : isUriStringSchema fs = true
    · rw [if_pos h]
      rfl
    · rw [if_neg h]
      rfl

theorem isUri_by_strOf (fs : List (String × J)) :
    isUriStringSchema fs
      = (match (getKey "type" fs).bind strOf, (getKey "format" fs).bind strOf with
         | some t, some f => t == "string" && f == "uri"
         | _, _ => false) := by
  unfold isUriStringSchema
  cases h1 : getKey "type" fs with
  | none => rfl
  | some v1 =>
    cases h2 : getKey "format" fs with
    | none => cases v1 <;> rfl
    | some v2 => cases v1 <;> cases v2 <;> rfl

theorem propsWalk_isObj (v : J) : typeofObject (propsWalk v) = true := by
  cases v <;> rfl

theorem getKey_walkFields (key : String) (fs : List (String × J)) :
    getKey key (walkFields fs)
      = (getKey key fs).map
          (fun v => if key = "properties" && typeofObject v then propsWalk v
                    else removeUriFormat v) := by
  induction fs with
  | nil => rfl
  | cons p t ih =>
    obtain ⟨k, v⟩ := p
    rw [walkFields_cons_eq]
    unfold getKey
    by_cases hk : k = key
    · subst hk
      rw [if_pos rfl, if_pos rfl]
      rfl
    · rw [if_neg hk, if_neg hk]
      exact ih

theorem isUri_walkFields (fs : List (String × J)) :
    isUriStringSchema (walkFields fs) = isUriStringSchema fs := by
  rw [isUri_by_strOf, isUri_by_strOf, getKey_walkFields, getKey_walkFields]
  have hval : ∀ (key : String), ¬ key = "properties" → ∀ v : J,
      strOf (if key = "properties" && typeofObject v then propsWalk v
             else removeUriFormat v) = strOf v := by
    intro key hkey v
    have hc : (key = "properties" && typeofObject v) = false := by
      simp [hkey]
    rw [hc, if_neg Bool.false_ne_true, strOf_removeUriFormat]
  cases h1 : getKey "type" fs with
  | none => rfl
  | some v1 =>
    cases h2 : getKey "format" fs with
    | none =>
      simp only [Option.map_some', Option.map_none', Option.some_bind, Option.none_bind]
      rw [hval "type" (by decide) v1]
    | some v2 =>
      simp only [Option.map_some', Option.some_bind]
      rw [hval "type" (by decide) v1, hval "format" (by decide) v2]

theorem clean_fix_all : ∀ n : Nat,
    (∀ j : J, sizeOf j ≤ n → cleanS j = true → removeUriFormat j = j)
    ∧ (∀ fs : List (String × J), sizeOf fs ≤ n → cleanF fs = true → walkFields fs = fs)
    ∧ (∀ v : J, sizeOf v ≤ n → propsClean v = true → propsWalk v = v)
    ∧ (∀ ps : List (String × J), sizeOf ps ≤ n → cleanPF ps = true → propsFields ps = ps)
    ∧ (∀ xs : List J, sizeOf xs ≤ n → cleanL xs = true → walkList xs = xs) := by
  intro n
  induction n using Nat.strong_induction_on with
  | _ n IH =>
    refine ⟨?_, ?_, ?_, ?_, ?_⟩
    · intro j hle hc
      cases j with
      | null => rfl
      | bool b => rfl
      | num m => rfl
      | str s => rfl
      | arr xs =>
        have hxs : sizeOf xs < n := lt_of_lt_of_le (sizeOf_arr_elems xs) hle
        have hcl : cleanL xs = true := hc
        show J.arr (walkList xs) = J.arr xs
        rw [(IH (sizeOf xs) hxs).2.2.2.2 xs le_rfl hcl]
      | obj fs =>
        have hfs : sizeOf fs < n := lt_of_lt_of_le (sizeOf_obj_fields fs) hle
        have hc2 : (!isUriStringSchema fs && cleanF fs) = true := hc
        rw [Bool.and_eq_true, Bool.not_eq_true'] at hc2
        show (if isUriStringSchema fs then J.obj (removeFormatKey fs)
          else J.obj (walkFields fs)) = J.obj fs
        rw [hc2.1, if_neg Bool.false_ne_true,
          (IH (sizeOf fs) hfs).2.1 fs le_rfl hc2.2]
    · intro fs hle hc
      cases fs with
      | nil => rfl
      | cons p t =>
        obtain ⟨k, v⟩ := p
        have hv : sizeOf v < n := lt_of_lt_of_le (sizeOf_field_val k v t) hle
        have ht : sizeOf t < n := lt_of_lt_of_le (sizeOf_field_tail k v t) hle
        have hc2 : ((if k = "properties" && typeofObject v then propsClean v else cleanS v)
            && cleanF t) = true := hc
        rw [Bool.and_eq_true] at hc2
        rw [walkFields_cons_eq, (IH (sizeOf t) ht).2.1 t le_rfl hc2.2]
        by_cases hcond : (k = "properties" && typeofObject v) = true
        · rw [if_pos hcond] at hc2 ⊢
          rw [(IH (sizeOf v) hv).2.2.1 v le_rfl hc2.1]
        · rw [if_neg hcond] at hc2 ⊢
          rw [(IH (sizeOf v) hv).1 v le_rfl hc2.1]
    · intro v hle hpc
      cases v with
      | null => exact Bool.noConfusion hpc
      | bool b => exact Bool.noConfusion hpc
      | num m => exact Bool.noConfusion hpc
      | str s => exact Bool.noConfusion hpc
      | arr xs => exact Bool.noConfusion hpc
      | obj ps =>
        have hps : sizeOf ps < n := lt_of_lt_of_le (sizeOf_obj_fields ps) hle
        show J.obj (propsFields ps) = J.obj ps
        rw [(IH (sizeOf ps) hps).2.2.2.1 ps le_rfl hpc]
    · intro ps hle hc
      cases ps with
      | nil => rfl
      | cons p t =>
        obtain ⟨k, v⟩ := p
        have hv : sizeOf v < n := lt_of_lt_of_le (sizeOf_field_val k v t) hle
        have ht : sizeOf t < n := lt_of_lt_of_le (sizeOf_field_tail k v t) hle
        have hc2 : (cleanS v && cleanPF t) = true := hc
        rw [Bool.and_eq_true] at hc2
        show (k, removeUriFormat v) :: propsFields t = (k, v) :: t
        rw [(IH (sizeOf v) hv).1 v le_rfl hc2.1,
          (IH (sizeOf t) ht).2.2.2.1 t le_rfl hc2.2]
    · intro xs hle hc
      cases xs with
      | nil => rfl
      | cons x t =>
        have hx : sizeOf x < n := lt_of_lt_of_le (sizeOf_elem_head x t) hle
        have ht : sizeOf t < n := lt_of_lt_of_le (sizeOf_elem_tail x t) hle
        have hc2 : (cleanS x && cleanL t) = true := hc
        rw [Bool.and_eq_true] at hc2
        show removeUriFormat x :: walkList t = x :: t
        rw [(IH (sizeOf x) hx).1 x le_rfl hc2.1,
          (IH (sizeOf t) ht).2.2.2.2 t le_rfl hc2.2]

theorem san_clean_all : ∀ n : Nat,
    (∀ j : J, sizeOf j ≤ n → sanitizable j = true → cleanS (removeUriFormat j) = true)
    ∧ (∀ fs : List (String × J), sizeOf fs ≤ n → sanF fs = true →
        cleanF (walkFields fs) = true)
    ∧ (∀ v : J, sizeOf v ≤ n → propsSan v = true → propsClean (propsWalk v) = true)
    ∧ (∀ ps : List (String × J), sizeOf ps ≤ n → sanPF ps = true →
        cleanPF (propsFields ps) = true)
    ∧ (∀ xs : List J, sizeOf xs ≤ n → sanL xs = true → cleanL (walkList xs) = true) := by
  intro n
  induction n using Nat.strong_induction_on with
  | _ n IH =>
    refine ⟨?_, ?_, ?_, ?_, ?_⟩
    · intro j hle hs
      cases j with
      | null => rfl
      | bool b => rfl
      | num m => rfl
      | str s => rfl
      | arr xs =>
        have hxs : sizeOf xs < n := lt_of_lt_of_le (sizeOf_arr_elems xs) hle
        have hsl : sanL xs = true := hs
        show cleanL (walkList xs) = true
        exact (IH (sizeOf xs) hxs).2.2.2.2 xs le_rfl hsl
      | obj fs =>
        have hfs : sizeOf fs < n := lt_of_lt_of_le (sizeOf_obj_fields fs) hle
        have hs2 : (if isUriStringSchema fs then cleanF (removeFormatKey fs)
            else sanF fs) = true := hs
        show cleanS (if isUriStringSchema fs then J.obj (removeFormatKey fs)
          else J.obj (walkFields fs)) = true
        by_cases hu : isUriStringSchema fs = true
        · rw [if_pos hu] at hs2 ⊢
          show (!isUriStringSchema (removeFormatKey fs) && cleanF (removeFormatKey fs)) = true
          rw [isUri_removeFormatKey, hs2]
          rfl
        · rw [if_neg hu] at hs2 ⊢
          show (!isUriStringSchema (walkFields fs) && cleanF (walkFields fs)) = true
          rw [isUri_walkFields, Bool.eq_false_iff.mpr hu,
            (IH (sizeOf fs) hfs).2.1 fs le_rfl hs2]
          rfl
    · intro fs hle hs
      cases fs with
      | nil => rfl
      | cons p t =>
        obtain ⟨k, v⟩ := p
        have hv : sizeOf v < n := lt_of_lt_of_le (sizeOf_field_val k v t) hle
        have ht : sizeOf t < n := lt_of_lt_of_le (sizeOf_field_tail k v t) hle
        have hs2 : ((if k = "properties" && typeofObject v then propsSan v else sanitizable v)
            && sanF t) = true := hs
        rw [Bool.and_eq_true] at hs2
        rw [walkFields_cons_eq]
        by_cases hcond : (k = "properties" && typeofObject v) = true
        · rw [if_pos hcond] at hs2 ⊢
          show ((if k = "properties" && typeofObject (propsWalk v)
              then propsClean (propsWalk v) else cleanS (propsWalk v))
            && cleanF (walkFields t)) = true
          have hk : (decide (k = "properties")) = true := by
            rw [Bool.and_eq_true] at hcond
            exact hcond.1
          have hcond2 : (k = "properties" && typeofObject (propsWalk v)) = true := by
            rw [propsWalk_isObj, hk]
            rfl
          rw [Bool.and_eq_true, if_pos hcond2]
          exact ⟨(IH (sizeOf v) hv).2.2.1 v le_rfl hs2.1,
            (IH (sizeOf t) ht).2.1 t le_rfl hs2.2⟩
        · rw [if_neg hcond] at hs2 ⊢
          show ((if k = "properties" && typeofObject (removeUriFormat v)
              then propsClean (removeUriFormat v) else cleanS (removeUriFormat v))
            && cleanF (walkFields t)) = true
          have hcond2 : (k = "properties" && typeofObject (removeUriFormat v))
              = (k = "properties" && typeofObject v) := by
            rw [typeof_removeUriFormat]
          rw [hcond2, if_neg hcond, Bool.and_eq_true]
          exact ⟨(IH (sizeOf v) hv).1 v le_rfl hs2.1,
            (IH (sizeOf t) ht).2.1 t le_rfl hs2.2⟩
    · intro v hle hps
      cases v with
      | null => rfl
      | bool b => rfl
      | num m => rfl
      | str s => rfl
      | arr xs => exact Bool.noConfusion hps
      | obj ps =>
        have hp : sizeOf ps < n := lt_of_lt_of_le (sizeOf_obj_fields ps) hle
        show cleanPF (propsFields ps) = true
        exact (IH (sizeOf ps) hp).2.2.2.1 ps le_rfl hps
    · intro ps hle hs
      cases ps with
      | nil => rfl
      | cons p t =>
        obtain ⟨k, v⟩ := p
        have hv : sizeOf v < n := lt_of_lt_of_le (sizeOf_field_val k v t) hle
        have ht : sizeOf t < n := lt_of_lt_of_le (sizeOf_field_tail k v t) hle
        have hs2 : (sanitizable v && sanPF t) = true := hs
        rw [Bool.and_eq_true] at hs2
        show (cleanS (removeUriFormat v) && cleanPF (propsFields t)) = true
        rw [Bool.and_eq_true]
        exact ⟨(IH (sizeOf v) hv).1 v le_rfl hs2.1,
          (IH (sizeOf t) ht).2.2.2.1 t le_rfl hs2.2⟩
    · intro xs hle hs
      cases xs with
      | nil => rfl
      | cons x t =>
        have hx : sizeOf x < n := lt_of_lt_of_le (sizeOf_elem_head x t) hle
        have ht : sizeOf t < n := lt_of_lt_of_le (sizeOf_elem_tail x t) hle
        have hs2 : (sanitizable x && sanL t) = true := hs
        rw [Bool.and_eq_true] at hs2
        show (cleanS (removeUriFormat x) && cleanL (walkList t)) = true
        rw [Bool.and_eq_true]
        exact ⟨(IH (sizeOf x) hx).1 x le_rfl hs2.1,
          (IH (sizeOf t) ht).2.2.2.2 t le_rfl hs2.2⟩

/-! ## Claim C5 -/

/-- Claim C5, counterexample: a stream whose single data line parses to a
completely empty frame — no choices, hence no content, and no usage — still
emits the full start block (header write, `message_start` with empty content
and zero usage, `ping`): the trigger is the first error-free parsed frame,
not the first content-bearing one. -/
theorem message_start_on_empty_frame :
    (processLines parseEmptyFrame initState ["data: e"]).2
      = [Ev.header, Ev.messageStart [] 0 0, Ev.ping]
    ∧ ({} : Frame).choices = []
    ∧ ({} : Frame).usage = none := ⟨rfl, rfl, rfl⟩

/-- Claim C5 (amended): over any stream of complete lines from the initial
state, the start-of-stream events (header write, `message_start` with empty
content and zero usage, `ping`) appear exactly once, in that order, iff
streaming started, and never twice — the header count is at most one and the
`message_start` and `ping` counts equal it; and from any reachable state a
single line triggers the start block exactly when the handler is live and the
line is a `data:` line whose glued payload is not `[DONE]` and parses to an
error-free frame — whether or not that frame carries any content. -/
theorem streaming_start_block (parse : String → ParseOutcome) (lines : List String)
    (st : SState) (line : String) :
    ((processLines parse initState lines).2.filter startEvB
        = (if (processLines parse initState lines).1.isStreamingStarted
           then [Ev.header, Ev.messageStart [] 0 0, Ev.ping] else [])
      ∧ (processLines parse initState lines).2.countP isHeaderEv ≤ 1
      ∧ (processLines parse initState lines).2.countP isMessageStartEv
          = (processLines parse initState lines).2.countP isHeaderEv
      ∧ (processLines parse initState lines).2.countP isPingEv
          = (processLines parse initState lines).2.countP isHeaderEv)
    ∧ (goodFlags st →
        (processLine parse st line).2.filter startEvB
          = (if st.isStreamingStarted then []
             else if lineTriggers parse st line
               then [Ev.header, Ev.messageStart [] 0 0, Ev.ping] else [])) := by
  constructor
  · have hgi : goodFlags initState := ⟨rfl, rfl, rfl⟩
    obtain ⟨q1, _, _⟩ := processLines_startEvs parse lines initState hgi
    have hstart : initState.isStreamingStarted = false := rfl
    rw [hstart, if_neg Bool.false_ne_true] at q1
    have himp : ∀ e, isHeaderEv e = true → startEvB e = true := by
      intro e he
      simp [startEvB, he]
    have himp2 : ∀ e, isMessageStartEv e = true → startEvB e = true := by
      intro e he
      simp [startEvB, he]
    have himp3 : ∀ e, isPingEv e = true → startEvB e = true := by
      intro e he
      simp [startEvB, he]
    have hh := countP_filter_of_imp isHeaderEv startEvB himp
      (processLines parse initState lines).2
    have hm := countP_filter_of_imp isMessageStartEv startEvB himp2
      (processLines parse initState lines).2
    have hp := countP_filter_of_imp isPingEv startEvB himp3
      (processLines parse initState lines).2
    rw [q1] at hh hm hp
    refine ⟨q1, ?_, ?_, ?_⟩
    · rw [← hh]
      cases hS : (processLines parse initState lines).1.isStreamingStarted <;>
        simp [hS, List.countP_cons, isHeaderEv]
    · rw [← hm, ← hh]
      cases hS : (processLines parse initState lines).1.isStreamingStarted <;>
        simp [hS, List.countP_cons, isHeaderEv, isMessageStartEv]
    · rw [← hp, ← hh]
      cases hS : (processLines parse initState lines).1.isStreamingStarted <;>
        simp [hS, List.countP_cons, isHeaderEv, isPingEv]
  · intro hg
    exact (processLine_startEvs parse st line hg).1

/-- Witness for C5 at a concrete live state and a concrete triggering line. -/
theorem streaming_start_block_witness :
    (processLine parseEmptyFrame initState "data: x").2.filter startEvB
      = [Ev.header, Ev.messageStart [] 0 0, Ev.ping] := by
  have h := (streaming_start_block parseEmptyFrame [] initState "data: x").2 ⟨rfl, rfl, rfl⟩
  rw [h]
  rfl

theorem splitChA_cons_sep (sep c : Char) (cs : List Char) (h : (c == sep) = true) :
    splitChA sep (c :: cs) = [] :: splitChA sep cs := by
  show (if c == sep then [] :: splitChA sep cs
    else (splitChA sep cs).modifyHead (c :: ·)) = _
  rw [if_pos h]

theorem splitChA_cons_nosep (sep c : Char) (cs : List Char) (h : (c == sep) = false) :
    splitChA sep (c :: cs) = (splitChA sep cs).modifyHead (c :: ·) := by
  show (if c == sep then [] :: splitChA sep cs
    else (splitChA sep cs).modifyHead (c :: ·)) = _
  rw [h, if_neg Bool.false_ne_true]

theorem splitChA_ne_nil (sep : Char) (l : List Char) : splitChA sep l ≠ [] := by
  induction l with
  | nil => exact List.cons_ne_nil _ _
  | cons c cs ih =>
    cases hc : (c == sep) with
    | true =>
      rw [splitChA_cons_sep sep c cs hc]
      exact List.cons_ne_nil _ _
    | false =>
      rw [splitChA_cons_nosep sep c cs hc]
      cases hS : splitChA sep cs with
      | nil => exact absurd hS ih
      | cons a t => exact List.cons_ne_nil _ _

theorem splitChA_append (sep : Char) (x y : List Char) :
    splitChA sep (x ++ y)
      = (splitChA sep x).dropLast
        ++ splitChA sep (((splitChA sep x).getLast?).getD [] ++ y) := by
  induction x with
  | nil => rfl
  | cons c cs ih =>
    rw [List.cons_append]
    cases hc : (c == sep) with
    | true =>
      rw [splitChA_cons_sep sep c _ hc, splitChA_cons_sep sep c cs hc, ih]
      cases hS : splitChA sep cs with
      | nil => exact absurd hS (splitChA_ne_nil sep cs)
      | cons a t =>
        cases t with
        | nil => rfl
        | cons b t2 =>
          simp only [List.dropLast_cons₂, List.getLast?_cons_cons, List.cons_append]
    | false =>
      rw [splitChA_cons_nosep sep c _ hc, splitChA_cons_nosep sep c cs hc, ih]
      cases hS : splitChA sep cs with
      | nil => exact absurd hS (splitChA_ne_nil sep cs)
      | cons a t =>
        cases t with
        | nil =>
          show ((splitChA sep (a ++ y)).modifyHead (c :: ·)) = splitChA sep ((c :: a) ++ y)
          rw [List.cons_append, splitChA_cons_nosep sep c _ hc]
        | cons b t2 =>
          simp only [List.modifyHead, List.dropLast_cons₂, List.getLast?_cons_cons,
            List.cons_append]

theorem splitChA_nlFree (l : List Char) (h : hasNl l = false) : splitChA '\n' l = [l] := by
  induction l with
  | nil => rfl
  | cons c cs ih =>
    have h2 : (c == '\n' || hasNl cs) = false := h
    rw [Bool.or_eq_false_iff] at h2
    rw [splitChA_cons_nosep _ c cs h2.1, ih h2.2]
    rfl

theorem splitChA_last_nlFree (l : List Char) :
    hasNl (((splitChA '\n' l).getLast?).getD []) = false := by
  induction l with
  | nil => rfl
  | cons c cs ih =>
    cases hc : (c == '\n') with
    | true =>
      rw [splitChA_cons_sep _ c cs hc]
      cases hS : splitChA '\n' cs with
      | nil => exact absurd hS (splitChA_ne_nil _ cs)
      | cons a t =>
        rw [hS] at ih
        rw [List.getLast?_cons_cons]
        exact ih
    | false =>
      rw [splitChA_cons_nosep _ c cs hc]
      cases hS : splitChA '\n' cs with
      | nil => exact absurd hS (splitChA_ne_nil _ cs)
      | cons a t =>
        rw [hS] at ih
        cases t with
        | nil =>
          show hasNl (c :: a) = false
          have h2 : hasNl a = false := ih
          show (c == '\n' || hasNl a) = false
          rw [hc, h2]
          rfl
        | cons b t2 =>
          rw [List.modifyHead, List.getLast?_cons_cons]
          rw [List.getLast?_cons_cons] at ih
          exact ih

theorem splitNl_append (a b : String) :
    splitNl (a ++ b)
      = (splitNl a).dropLast ++ splitNl (((splitNl a).getLast?).getD "" ++ b) := by
  have hdata : (((((splitChA '\n' a.data).map (fun l => (⟨l⟩ : String))).getLast?).getD
      "").data) = ((splitChA '\n' a.data).getLast?).getD [] := by
    rw [List.getLast?_map]
    cases (splitChA '\n' a.data).getLast? <;> rfl
  show ((splitChA '\n' (a ++ b).data).map _) = _
  rw [String.data_append, splitChA_append, List.map_append, List.map_dropLast]
  show _ = _ ++ (splitChA '\n' ((((splitNl a).getLast?).getD "" ++ b) : String).data).map _
  rw [String.data_append]
  show _ = _ ++ (splitChA '\n'
    (((((splitChA '\n' a.data).map (fun l => (⟨l⟩ : String))).getLast?).getD "").data
      ++ b.data)).map _
  rw [hdata]
  rfl

theorem splitNl_ne_nil (s : String) : splitNl s ≠ [] := by
  intro h
  exact splitChA_ne_nil '\n' s.data (by simpa [splitNl] using h)

theorem splitNl_nlFree (s : String) (h : nlFree s = true) : splitNl s = [s] := by
  have h2 : hasNl s.data = false := by
    have h3 : (!hasNl s.data) = true := h
    rw [Bool.not_eq_true'] at h3
    exact h3
  show (splitChA '\n' s.data).map _ = _
  rw [splitChA_nlFree s.data h2]
  rfl

theorem splitNl_last_nlFree (s : String) :
    nlFree (((splitNl s).getLast?).getD "") = true := by
  show (!hasNl ((((splitChA '\n' s.data).map (fun l => (⟨l⟩ : String))).getLast?).getD
    "").data) = true
  have hdata : (((((splitChA '\n' s.data).map (fun l => (⟨l⟩ : String))).getLast?).getD
      "").data) = ((splitChA '\n' s.data).getLast?).getD [] := by
    rw [List.getLast?_map]
    cases (splitChA '\n' s.data).getLast? <;> rfl
  rw [hdata, splitChA_last_nlFree]
  rfl

theorem processLine_dead (parse : String → ParseOutcome) (st : SState) (line : String)
    (h : (st.terminated || st.connectionClosed) = true) :
    processLine parse st line = (st, []) := by
  rw [Bool.or_eq_true] at h
  cases ht : st.terminated with
  | true =>
    unfold processLine
    rw [ht]
    rfl
  | false =>
    have hcl : st.connectionClosed = true := by
      cases h with
      | inl h1 => exact absurd h1 (by rw [ht]; exact Bool.false_ne_true)
      | inr h2 => exact h2
    unfold processLine
    rw [ht, hcl, if_neg Bool.false_ne_true]
    rfl

theorem processLines_dead (parse : String → ParseOutcome) (lines : List String) :
    ∀ st : SState, (st.terminated || st.connectionClosed) = true →
    processLines parse st lines = (st, []) := by
  induction lines with
  | nil => intro st h; rfl
  | cons l rest ih =>
    intro st h
    rw [processLines_cons, processLine_dead parse st l h, ih st h]
    rfl

theorem processLines_append (parse : String → ParseOutcome) (l1 l2 : List String) :
    ∀ st : SState,
    processLines parse st (l1 ++ l2)
      = ((processLines parse (processLines parse st l1).1 l2).1,
         (processLines parse st l1).2
           ++ (processLines parse (processLines parse st l1).1 l2).2) := by
  induction l1 with
  | nil => intro st; rfl
  | cons l rest ih =>
    intro st
    rw [List.cons_append, processLines_cons, processLines_cons,
      ih (processLine parse st l).1]
    simp only [List.append_assoc]

theorem processChunk_dead (parse : String → ParseOutcome) (st : SState)
    (buf chunk : String) (h : (st.terminated || st.connectionClosed) = true) :
    processChunk parse (st, buf) chunk = ((st, buf), []) := by
  unfold processChunk
  dsimp only
  rw [h]
  rfl

theorem processChunk_live (parse : String → ParseOutcome) (st : SState)
    (buf chunk : String) (h : (st.terminated || st.connectionClosed) = false) :
    processChunk parse (st, buf) chunk
      = (((processLines parse st (splitNl (buf ++ chunk)).dropLast).1,
          ((splitNl (buf ++ chunk)).getLast?).getD ""),
         (processLines parse st (splitNl (buf ++ chunk)).dropLast).2) := by
  unfold processChunk
  dsimp only
  rw [h, if_neg Bool.false_ne_true]

theorem processChunk_append (parse : String → ParseOutcome) (st : SState)
    (b c1 c2 : String) :
    (processChunk parse (st, b) (c1 ++ c2)).1.1
        = (processChunk parse (processChunk parse (st, b) c1).1 c2).1.1
    ∧ (processChunk parse (st, b) (c1 ++ c2)).2
        = (processChunk parse (st, b) c1).2
          ++ (processChunk parse (processChunk parse (st, b) c1).1 c2).2 := by
  by_cases hg : (st.terminated || st.connectionClosed) = true
  · rw [processChunk_dead parse st b (c1 ++ c2) hg, processChunk_dead parse st b c1 hg]
    rw [processChunk_dead parse st b c2 hg]
    exact ⟨rfl, rfl⟩
  · have hg' : (st.terminated || st.connectionClosed) = false := Bool.eq_false_iff.mpr hg
    rw [processChunk_live parse st b (c1 ++ c2) hg', processChunk_live parse st b c1 hg']
    have hsplit : splitNl (b ++ (c1 ++ c2))
        = (splitNl (b ++ c1)).dropLast
          ++ splitNl ((((splitNl (b ++ c1)).getLast?).getD "") ++ c2) := by
      rw [← String.append_assoc, splitNl_append]
    have hdrop : (splitNl (b ++ (c1 ++ c2))).dropLast
        = (splitNl (b ++ c1)).dropLast
          ++ (splitNl ((((splitNl (b ++ c1)).getLast?).getD "") ++ c2)).dropLast := by
      rw [hsplit, List.dropLast_append_of_ne_nil _ (splitNl_ne_nil _)]
    by_cases g1 : ((processLines parse st (splitNl (b ++ c1)).dropLast).1.terminated
        || (processLines parse st (splitNl (b ++ c1)).dropLast).1.connectionClosed) = true
    · rw [processChunk_dead parse _ _ c2 g1]
      constructor
      · show (processLines parse st (splitNl (b ++ (c1 ++ c2))).dropLast).1 = _
        rw [hdrop, processLines_append,
          processLines_dead parse _ _ g1]
      · show (processLines parse st (splitNl (b ++ (c1 ++ c2))).dropLast).2 = _
        rw [hdrop, processLines_append,
          processLines_dead parse _ _ g1]
    · have g1' := Bool.eq_false_iff.mpr g1
      rw [processChunk_live parse _ _ c2 g1']
      constructor
      · show (processLines parse st (splitNl (b ++ (c1 ++ c2))).dropLast).1 = _
        rw [hdrop, processLines_append]
      · show (processLines parse st (splitNl (b ++ (c1 ++ c2))).dropLast).2 = _
        rw [hdrop, processLines_append]

theorem processChunk_buffer_nlFree (parse : String → ParseOutcome)
    (sb : SState × String) (c : String) (h : nlFree sb.2 = true) :
    nlFree (processChunk parse sb c).1.2 = true := by
  obtain ⟨st, b⟩ := sb
  by_cases hg : (st.terminated || st.connectionClosed) = true
  · rw [processChunk_dead parse st b c hg]
    exact h
  · rw [processChunk_live parse st b c (Bool.eq_false_iff.mpr hg)]
    exact splitNl_last_nlFree (b ++ c)

/-! ## Claim C3 -/

/-- Claim C3: from any read-loop state whose carryover buffer holds no
newline (true of the initial empty buffer and preserved by every read),
feeding the upstream bytes as any sequence of reads produces exactly the
same final machine state and the same downstream event sequence as feeding
their concatenation in a single read — in particular, a `data:` line split
mid-JSON across two reads behaves like the complete line in one read,
because incoming bytes are appended to the carryover buffer, split on
newline, complete lines are processed and the trailing partial line is
retained. -/
theorem rechunking_equiv (parse : String → ParseOutcome) (chunks : List String) :
    ∀ sb : SState × String, nlFree sb.2 = true →
    (processChunks parse sb chunks).1.1 = (processChunk parse sb (concatStrs chunks)).1.1
    ∧ (processChunks parse sb chunks).2 = (processChunk parse sb (concatStrs chunks)).2 := by
  induction chunks with
  | nil =>
    intro sb hnl
    obtain ⟨st, b⟩ := sb
    by_cases hg : (st.terminated || st.connectionClosed) = true
    · rw [processChunk_dead parse st b _ hg]
      exact ⟨rfl, rfl⟩
    · rw [processChunk_live parse st b _ (Bool.eq_false_iff.mpr hg)]
      have hb : (b ++ (concatStrs [] : String)) = b := by
        show b ++ "" = b
        exact String.append_empty b
      rw [hb, splitNl_nlFree b hnl]
      exact ⟨rfl, rfl⟩
  | cons c rest ih =>
    intro sb hnl
    obtain ⟨st, b⟩ := sb
    obtain ⟨hA1, hA2⟩ := processChunk_append parse st b c (concatStrs rest)
    have hnl1 : nlFree (processChunk parse (st, b) c).1.2 = true :=
      processChunk_buffer_nlFree parse (st, b) c hnl
    obtain ⟨hI1, hI2⟩ := ih (processChunk parse (st, b) c).1 hnl1
    constructor
    · show (processChunks parse (processChunk parse (st, b) c).1 rest).1.1 = _
      rw [hI1, ← hA1]
      rfl
    · show (processChunk parse (st, b) c).2
        ++ (processChunks parse (processChunk parse (st, b) c).1 rest).2 = _
      rw [hI2, ← hA2]
      rfl

/-- Witness for C3 at the spec's two-read example: the `data:` line split
mid-JSON across two reads emits the same events as the complete line in one
read. -/
theorem rechunking_equiv_witness :
    (processChunks parseEmptyFrame (initState, "")
        ["data: \x7b\"choi", "ces\":[1]\x7d\n"]).2
      = (processChunk parseEmptyFrame (initState, "")
          (concatStrs ["data: \x7b\"choi", "ces\":[1]\x7d\n"])).2 :=
  (rechunking_equiv parseEmptyFrame ["data: \x7b\"choi", "ces\":[1]\x7d\n"]
    (initState, "") rfl).2

/-! ## Claim C6 -/

/-- Claim C6, counterexample: the sanitizer is not idempotent and does not
reach every nesting level.  On a `type:'string'`/`format:'uri'` schema whose
`allOf` holds another uri-format leaf, the early return strips only the
outer `format` key and never recurses, so the inner leaf keeps its `format`
key after one pass and loses it on a second pass — the two passes disagree. -/
theorem removeUriFormat_not_idempotent :
    removeUriFormat nestedUri
      = J.obj [("type", J.str "string"), ("allOf", J.arr [uriLeaf])]
    ∧ removeUriFormat (removeUriFormat nestedUri)
      = J.obj [("type", J.str "string"),
               ("allOf", J.arr [J.obj [("type", J.str "string")]])]
    ∧ (allOfHead (removeUriFormat nestedUri)).map hasFormatKey = some true
    ∧ (allOfHead (removeUriFormat (removeUriFormat nestedUri))).map hasFormatKey = some false
    ∧ removeUriFormat (removeUriFormat nestedUri) ≠ removeUriFormat nestedUri := by
  refine ⟨rfl, rfl, rfl, rfl, ?_⟩
  intro h
  have h2 := congrArg (fun x => (allOfHead x).map hasFormatKey) h
  exact absurd h2 (by decide)

/-- Claim C6 (amended): the sanitizer fixes already-clean schemas — those
with no reachable `type:'string'`/`format:'uri'` sub-schema and no
`properties` value that is an array or `null` — leaving them structurally
unchanged; and on sanitizable schemas — those whose uri-format sub-schemas
carry only already-clean other fields, since the early return does not
recurse into them — one pass yields a clean schema and the sanitizer is
idempotent. -/
theorem removeUriFormat_amended (j : J) :
    (cleanS j = true → removeUriFormat j = j)
    ∧ (sanitizable j = true →
        cleanS (removeUriFormat j) = true
        ∧ removeUriFormat (removeUriFormat j) = removeUriFormat j) := by
  refine ⟨fun hc => (clean_fix_all (sizeOf j)).1 j le_rfl hc, fun hs => ?_⟩
  have h1 : cleanS (removeUriFormat j) = true := (san_clean_all (sizeOf j)).1 j le_rfl hs
  exact ⟨h1, (clean_fix_all (sizeOf (removeUriFormat j))).1 _ le_rfl h1⟩

/-- Witness for C6 at a clean scalar schema and at the spec's nested
example. -/
theorem removeUriFormat_amended_witness :
    removeUriFormat (J.obj [("type", J.str "number")]) = J.obj [("type", J.str "number")]
    ∧ cleanS (removeUriFormat specSchema) = true
    ∧ removeUriFormat (removeUriFormat specSchema) = removeUriFormat specSchema :=
  ⟨(removeUriFormat_amended (J.obj [("type", J.str "number")])).1 (by decide),
   ((removeUriFormat_amended specSchema).2 (by decide)).1,
   ((removeUriFormat_amended specSchema).2 (by decide)).2⟩

/-! ## Claim C1 -/

/-- Claim C1: over any stream of parsed upstream frames and any tool-call
index, if the cumulative argument strings received for that index form a
prefix-extension chain, then the concatenation of all `partial_json`
fragments emitted as `input_json_delta` `content_block_delta` events for
that index equals the final cumulative string; and a tool-call delta whose
cumulative argument string is not strictly longer than the string already
accumulated for its index emits no `content_block_delta` event. -/
theorem tool_delta_suffix_property (fs : List Frame) (i : Nat) (st : SState) (tc : ToolCall) :
    (prefixChain (argsAt i fs) = true →
      concatStrs (jsonDeltasAt i (processFrames initState fs).2) = lastStr (argsAt i fs))
    ∧ ((tc.arguments.getD "").length
          ≤ ((lookupAcc tc.index st.toolCallAccumulators).getD "").length →
        (processToolCall st tc).2.countP isContentBlockDeltaEv = 0) := by
  constructor
  · intro hchain
    have h0 : (lookupAcc i initState.toolCallAccumulators).getD "" = "" := rfl
    have hres := processFrames_suffix i fs initState rfl
      (by rw [h0]; exact chain_cons_empty hchain)
    rw [h0] at hres
    rw [hres.1, lastStr_cons_empty, subFrom_zero]
  · intro hle
    cases hlk : lookupAcc tc.index st.toolCallAccumulators with
    | none =>
      rw [hlk] at hle
      have hle2 : (tc.arguments.getD "").length ≤ 0 := hle
      have hnot : ¬((0 : Nat) < (tc.arguments.getD "").length) := by omega
      simp [processToolCall, hlk, lookupAcc_setAcc_self, hnot, isContentBlockDeltaEv]
    | some a =>
      rw [hlk] at hle
      have hle2 : (tc.arguments.getD "").length ≤ a.length := hle
      have hnot : ¬(a.length < (tc.arguments.getD "").length) := by omega
      simp [processToolCall, hlk, hnot]

/-- Witness for C1 at a concrete two-frame chain and a concrete duplicate
delta. -/
theorem tool_delta_suffix_property_witness :
    concatStrs (jsonDeltasAt 0 (processFrames initState [toolFrame "ab", toolFrame "abcd"]).2)
        = lastStr (argsAt 0 [toolFrame "ab", toolFrame "abcd"])
    ∧ (processToolCall accWitnessState dupToolCall).2.countP isContentBlockDeltaEv = 0 :=
  ⟨(tool_delta_suffix_property [toolFrame "ab", toolFrame "abcd"] 0 initState dupToolCall).1
      (by decide),
   (tool_delta_suffix_property [] 0 accWitnessState dupToolCall).2 (by decide)⟩

/-! ## Claim C2 -/

/-- Claim C2: after any stream of parsed frames, processing the `[DONE]`
sentinel line (with the connection open) emits exactly one
`content_block_stop` per tool-call index that was used — no stray index-0
text stop when no text block was opened, while a lone open text block gets a
single index-0 stop — then exactly one `message_delta` whose stop reason is
`tool_use` iff any tool call was seen, carrying `completion_tokens` from the
captured upstream usage or else the word-count estimate over accumulated
content and reasoning, then `message_stop`, and the response is ended; the
handler is terminated and processes no further upstream bytes. -/
theorem done_sentinel_terminal (fs : List Frame) (i : Nat) (parse : String → ParseOutcome)
    (buf chunk : String) :
    processLine parse (processFrames initState fs).1 "data: [DONE]"
        = processDone (processFrames initState fs).1
    ∧ (processDone (processFrames initState fs).1).2.count (Ev.contentBlockStop i)
        = (if (processFrames initState fs).1.encounteredToolCall then
             (if i ∈ usedIndices (processFrames initState fs).1 then 1 else 0)
           else if (processFrames initState fs).1.textBlockStarted ∧ i = 0 then 1 else 0)
    ∧ ((i ∈ usedIndices (processFrames initState fs).1)
        ↔ ∃ f ∈ fs, ∃ tc ∈ frameToolCalls f, tc.index = i)
    ∧ (processFrames initState fs).1.encounteredToolCall = sawToolCall fs
    ∧ (∃ stops : List Ev, stops.all isStopEv = true
        ∧ (processDone (processFrames initState fs).1).2
            = stops ++ [Ev.messageDelta (if sawToolCall fs then "tool_use" else "end_turn")
                  (match capturedUsage fs with
                   | some u => u.completion_tokens
                   | none => wordCount (processFrames initState fs).1.accumulatedContent
                       + wordCount (processFrames initState fs).1.accumulatedReasoning),
                Ev.messageStop, Ev.endResponse])
    ∧ (processDone (processFrames initState fs).1).1.terminated = true
    ∧ processChunk parse ((processDone (processFrames initState fs).1).1, buf) chunk
        = (((processDone (processFrames initState fs).1).1, buf), []) := by
  obtain ⟨r1, r2, r3, r4, r5, r6, r7⟩ := processFrames_inv fs initState rfl rfl
  have hasc : ascKeys (processFrames initState fs).1.toolCallAccumulators = true := r4 rfl
  have hnodup : (usedIndices (processFrames initState fs).1).Nodup := ascKeys_nodup _ hasc
  obtain ⟨hspec, hterm⟩ := processDone_spec (processFrames initState fs).1 r1
  have henc : (processFrames initState fs).1.encounteredToolCall = sawToolCall fs := by
    rw [r5]
    show (false || sawToolCall fs) = sawToolCall fs
    simp
  have husage : (processFrames initState fs).1.usage = capturedUsage fs := by
    rw [r6]
    show (match capturedUsage fs with | some u => some u | none => initState.usage) = _
    exact option_match_id _
  have hmemiff : ∀ j, (j ∈ usedIndices (processFrames initState fs).1)
      ↔ ∃ f ∈ fs, ∃ tc ∈ frameToolCalls f, tc.index = j := by
    intro j
    rw [r7 j]
    constructor
    · rintro (h | h)
      · simp [usedIndices, initState] at h
      · exact h
    · exact Or.inr
  refine ⟨processLine_done parse _ (by rw [r2]; rfl) r1 r3, ?_, hmemiff i, henc, ?_, hterm,
    processChunk_terminated parse _ buf chunk hterm⟩
  · rw [hspec, List.count_append]
    have htail : List.count (Ev.contentBlockStop i)
        [Ev.messageDelta (if (processFrames initState fs).1.encounteredToolCall
              then "tool_use" else "end_turn")
            (match (processFrames initState fs).1.usage with
             | some u => u.completion_tokens
             | none => wordCount (processFrames initState fs).1.accumulatedContent
                 + wordCount (processFrames initState fs).1.accumulatedReasoning),
          Ev.messageStop, Ev.endResponse] = 0 := by
      simp [List.count_cons]
    rw [htail]
    cases hET : (processFrames initState fs).1.encounteredToolCall with
    | true =>
      simp only [if_true]
      rw [count_stops _ hnodup i]
      simp
    | false =>
      simp only [Bool.false_eq_true, if_false]
      cases hTB : (processFrames initState fs).1.textBlockStarted with
      | true =>
        simp only [if_true]
        by_cases hi : i = 0
        · subst hi
          simp [List.count_cons]
        · simp [List.count_cons, hi, Ne.symm hi]
      | false =>
        simp
  · refine ⟨(if (processFrames initState fs).1.encounteredToolCall then
        (usedIndices (processFrames initState fs).1).map Ev.contentBlockStop
      else if (processFrames initState fs).1.textBlockStarted
        then [Ev.contentBlockStop 0] else []), ?_, ?_⟩
    · split_ifs
      · simp [List.all_eq_true, isStopEv]
      · simp [isStopEv]
      · simp
    · rw [hspec, henc, husage]

/-! ## Claim C4 -/

/-- Claim C4, counterexample: a `tool_result` block that carries a `text`
field has that text space-joined into the originating message's outbound
content (`"hi res"` contains the result text `"res"`), so the tool result is
not kept out of the originating message's content. -/
theorem tool_result_text_merged :
    buildMessages mergePayload =
      [{ role := "user", content := some (.str "hi res"), tool_calls := [], tool_call_id := none },
       { role := "tool", content := some (.str "res"), tool_calls := [], tool_call_id := some "t1" }]
    ∧ jsIncludes "hi res" "res" = true :=
  ⟨rfl, rfl⟩

/-- Claim C4 (amended): every `tool_result` block of an inbound message is
emitted as its own `role: 'tool'` message, appended right after that
message's main outbound message (which is at most one message), with
`tool_call_id` equal to the block's `tool_use_id`; the originating message's
content is the space-join of the `text` fields of all its blocks, so a
`tool_result` carrying a `text` field contributes that text to the
originating message's content even though the block is also emitted as a
separate tool message. -/
theorem tool_results_separate_messages (p : Payload) (m : InMessage) (it : Item) :
    buildMessages p = sysMsgs p ++ perMessages (p.messages.getD [])
    ∧ perMessage m = mainPart m ++ toolResultPart m
    ∧ toolResultPart m = ((itemsOf m).filter (fun b => b.type == "tool_result")).map mkToolMsg
    ∧ (mkToolMsg it).role = "tool"
    ∧ (mkToolMsg it).tool_call_id = it.tool_use_id
    ∧ (mainPart m).length ≤ 1 := by
  refine ⟨buildMessages_decomp p, rfl, ?_, rfl, rfl, ?_⟩
  · cases m with
    | mk role content => cases content <;> rfl
  · by_cases h : (truthyStr (normalizeContent m.content) || !(msgToolCalls m).isEmpty) = true
    · simp [mainPart, h]
    · simp [mainPart, h]

/-! ## Claim C7 -/

/-- Claim C7, counterexample: an upstream id without the `chatcmpl` prefix
is passed through unchanged by `data.id.replace('chatcmpl', 'msg')` — no
fresh `msg`-prefixed id is synthesized. -/
theorem message_id_passthrough :
    messageIdOf (some "resp-77") "r0" = "resp-77"
    ∧ jsStartsWith (messageIdOf (some "resp-77") "r0") "msg" = false := by
  exact ⟨rfl, rfl⟩

/-- Claim C7 (amended): an absent or empty upstream id synthesizes a fresh
random `msg_`-prefixed id; a nonempty id has its first occurrence of
`chatcmpl` (anywhere) replaced by `msg` — in particular an id with the
`chatcmpl` prefix becomes `msg` followed by the rest of the id — and an id
without that substring is passed through unchanged rather than replaced by a
fresh id. -/
theorem message_id_rewrite (s rand : String) :
    (messageIdOf none rand = "msg_" ++ rand
      ∧ messageIdOf (some "") rand = "msg_" ++ rand)
    ∧ (s.isEmpty = false → messageIdOf (some s) rand = jsReplaceFirst s "chatcmpl" "msg")
    ∧ (jsStartsWith s "chatcmpl" = true → s.isEmpty = false →
        messageIdOf (some s) rand = "msg" ++ subFrom s 8) := by
  refine ⟨⟨rfl, rfl⟩, ?_, ?_⟩
  · intro hne
    simp [messageIdOf, hne]
  · intro hpre hne
    have h1 : messageIdOf (some s) rand = jsReplaceFirst s "chatcmpl" "msg" := by
      simp [messageIdOf, hne]
    rw [h1]
    show String.mk (replFirstL "chatcmpl".data "msg".data s.data) = "msg" ++ subFrom s 8
    rw [replFirstL_of_prefixed _ _ _ (by decide) hpre]
    rfl

/-- Witness for C7's amended theorem at a concrete prefixed id. -/
theorem message_id_rewrite_witness :
    messageIdOf (some "chatcmpl-abc") "r1" = "msg" ++ subFrom "chatcmpl-abc" 8 :=
  (message_id_rewrite "chatcmpl-abc" "r1").2.2 (by decide) (by decide)

/-! ## Claim C8 -/

/-- Claim C8: a non-2xx upstream status with nothing sent yet (streaming not
started, connection open, reply unsent) is answered with exactly that status
and `{ error: <upstream body text> }`; once streaming has begun or the
connection has closed, no error response is written; an internal failure
caught before output yields 500 with `{ error: <message> }`. -/
theorem upstream_error_reply_spec (status : Nat) (errorDetails msg : String)
    (streaming closed : Bool) :
    (upstreamOk status = false →
      non2xxReply status errorDetails false false false = some (status, ⟨errorDetails⟩))
    ∧ (streaming = true ∨ closed = true →
        ∀ sent : Bool,
          non2xxReply status errorDetails sent streaming closed = none
          ∧ catchReply msg sent streaming closed = none)
    ∧ catchReply msg false false false = some (500, ⟨msg⟩) := by
  refine ⟨fun _ => rfl, ?_, rfl⟩
  intro h sent
  rcases h with h | h <;> subst h <;>
    constructor <;> simp [non2xxReply, catchReply]

/-- Witness for C8 at a concrete non-2xx status. -/
theorem upstream_error_reply_spec_witness :
    non2xxReply 404 "model not found" false false false = some (404, ⟨"model not found"⟩) :=
  (upstream_error_reply_spec 404 "model not found" "m" false false).1 (by decide)

/-! ## Claim C9 -/

/-- Claim C9: when the very first data line of the stream is the `[DONE]`
sentinel, the proxy emits `message_delta` with stop reason `end_turn` and
output tokens 2 (word-splitting the two empty accumulated strings yields 1
each), then `message_stop`, then ends the response — and never emits the SSE
header write, `message_start`, or `ping`; processing is terminated. -/
theorem done_as_first_line (parse : String → ParseOutcome) :
    (processChunk parse (initState, "") "data: [DONE]\n").2 =
      [Ev.messageDelta "end_turn" (wordCount "" + wordCount ""), Ev.messageStop, Ev.endResponse]
    ∧ wordCount "" + wordCount "" = 2
    ∧ (processChunk parse (initState, "") "data: [DONE]\n").1.1.terminated = true
    ∧ (processChunk parse (initState, "") "data: [DONE]\n").2.countP isHeaderEv = 0
    ∧ (processChunk parse (initState, "") "data: [DONE]\n").2.countP isMessageStartEv = 0
    ∧ (processChunk parse (initState, "") "data: [DONE]\n").2.countP isPingEv = 0 :=
  ⟨rfl, rfl, rfl, rfl, rfl, rfl⟩

/-! ## Claim C10 -/

/-- Claim C10: for the inbound request whose assistant message holds only a
`tool_use` block, the outbound message carries `tool_calls` and no `content`
field; when the upstream response omits `usage`, the input-token word-split
throws, and the handler answers HTTP 500 instead of a translated response. -/
theorem non_streaming_usage_crash (pj : String → Except String J) (rand model : String) :
    buildMessages toolOnlyPayload =
      [{ role := "assistant", content := none,
         tool_calls := [{ id := some "tu1", name := some "get", arguments := some "\x7b\x7d" }],
         tool_call_id := none }]
    ∧ isErrE (estimateInputTokens (buildMessages toolOnlyPayload)) = true
    ∧ outcomeStatus (handleNonStreaming pj rand model toolOnlyPayload respNoUsage) = some 500 :=
  ⟨by rfl, by rfl, by rfl⟩

end Proxy
